import Mathlib

/-!
# Section Matching & Change Classification Engine — shallow embedding

This file embeds, in Lean, the core of the document-comparison repository:
`scripts/semantic_utils.py` (the similarity scorer) and
`scripts/compare_sections.py` (pair scorer, matcher, classifier, validator
pipeline and final ordering), and proves properties of the embedding.

Modelling conventions:
* Python `float` arithmetic is modelled by exact rational arithmetic (`ℚ`);
  all the constants involved (0.55, 0.58, 0.92, …) are decimal literals.
* Python strings are modelled by `String` / `List Char`; `str.lower`,
  `str.strip` and the regexes `\s`, `\w`, `[a-z0-9]` are modelled on the
  ASCII plane (the inputs of interest are ASCII).
* `difflib.SequenceMatcher` (with `isjunk=None`, `autojunk=True`) is embedded
  faithfully: `b2j` with the autojunk "popular element" rule for `len(b) ≥ 200`,
  the `find_longest_match` inner loop with its strict-improvement update, the
  two non-junk extension loops (the junk extension loops never fire because
  `bjunk` is empty when `isjunk is None`), and the recursive decomposition of
  `get_matching_blocks`, whose block-length sum is what `ratio()` uses.
* The process-wide change-id counter (`_change_id_gen`) is made explicit: it
  is threaded through the classification stage as a `Nat` argument.
* The optional embedding backend is disabled (the default configuration:
  `ENABLE_EMBEDDINGS` unset), so `semantic_similarity` takes its lexical
  fallback branch.
-/

set_option maxRecDepth 100000

namespace DocCmp

/-! ## Computable rational arithmetic

The `Rat` arithmetic operations of the ambient library are `@[irreducible]`;
to keep every definition evaluable by `decide`, the embedding computes with
`mkRat`-based operations and bridges to the field operations of `ℚ` through
the lemmas below. -/

def qAdd (a b : ℚ) : ℚ := mkRat (a.num * (b.den : Int) + b.num * (a.den : Int)) (a.den * b.den)

def qMul (a b : ℚ) : ℚ := mkRat (a.num * b.num) (a.den * b.den)

def qSub (a b : ℚ) : ℚ := qAdd a (mkRat (-b.num) b.den)

/-! ## Character classes (ASCII models of Python's `\s`, `\w`, `str.lower`) -/

/-- ASCII whitespace: the characters matched by Python's `\s` / stripped by
`str.strip` on the ASCII plane. -/
def isWs (c : Char) : Bool :=
  c = ' ' || c = '\t' || c = '\n' || c = '\r' || c = '\x0b' || c = '\x0c'

def isDigitCh (c : Char) : Bool := '0' ≤ c && c ≤ '9'

def isAlphaLowerCh (c : Char) : Bool := 'a' ≤ c && c ≤ 'z'

def isAlphaUpperCh (c : Char) : Bool := 'A' ≤ c && c ≤ 'Z'

def isAlphaCh (c : Char) : Bool := isAlphaLowerCh c || isAlphaUpperCh c

/-- Python's `\w` (ASCII): letters, digits, underscore. -/
def isWordCh (c : Char) : Bool := isAlphaCh c || isDigitCh c || c = '_'

def lowerCh (c : Char) : Char :=
  if isAlphaUpperCh c then Char.ofNat (c.toNat + 32) else c

def lowerStr (s : List Char) : List Char := s.map lowerCh

/-- Python `str.strip()`: drop whitespace at both ends. -/
def stripWs (s : List Char) : List Char :=
  (((s.dropWhile isWs).reverse).dropWhile isWs).reverse

/-- `SPACE_RE.sub(" ", ·)`: replace each maximal whitespace run by one space.
The boolean argument records whether the previous character was whitespace. -/
def collapseWsAux : Bool → List Char → List Char
  | _, [] => []
  | prevWs, c :: rest =>
    if isWs c then
      if prevWs then collapseWsAux true rest
      else ' ' :: collapseWsAux true rest
    else c :: collapseWsAux false rest

def collapseWs (s : List Char) : List Char := collapseWsAux false s

/-- `normalize_text` / `_normalize`: lowercase, strip, collapse whitespace.
(`_normalize` strips before lowercasing, `normalize_text` lowercases before
stripping; the two agree because lowercasing maps no character into or out of
the whitespace class, so one definition serves both.) -/
def normChars (s : List Char) : List Char := collapseWs (lowerStr (stripWs s))

def normalizeText (s : String) : String := String.mk (normChars s.data)

/-! ## Tokenizer (`TOKEN_RE = [a-z0-9]+`) and Jaccard similarity -/

def isTokCh (c : Char) : Bool := isAlphaLowerCh c || isDigitCh c

/-- Maximal runs of `[a-z0-9]` characters; the accumulator holds the current
run reversed. -/
def tokenRunsAux : List Char → List Char → List (List Char)
  | acc, [] => if acc.isEmpty then [] else [acc.reverse]
  | acc, c :: rest =>
    if isTokCh c then tokenRunsAux (c :: acc) rest
    else if acc.isEmpty then tokenRunsAux [] rest
    else acc.reverse :: tokenRunsAux [] rest

def tokenRuns (s : List Char) : List (List Char) := tokenRunsAux [] s

/-- `tokenize`: token list of the normalized text. -/
def tokensOf (s : List Char) : List (List Char) := tokenRuns (normChars s)

/-- `jaccard_similarity` on (models of) Python strings: token-set Jaccard with
the two emptiness guards. -/
def jaccardSim (a b : List Char) : ℚ :=
  if ((tokensOf a).dedup).isEmpty && ((tokensOf b).dedup).isEmpty then 1
  else if ((tokensOf a).dedup).isEmpty || ((tokensOf b).dedup).isEmpty then 0
  else mkRat (((tokensOf a).dedup.filter (fun t => t ∈ (tokensOf b).dedup)).length : Int)
             (((tokensOf a).dedup ++
               (tokensOf b).dedup.filter (fun t => t ∉ (tokensOf a).dedup)).length)

/-! ## `difflib.SequenceMatcher` (isjunk=None, autojunk=True) -/

/-- Indices of occurrences of `c` in `b` (ascending). -/
def positionsOf (b : List Char) (c : Char) : List Nat :=
  (List.range b.length).filter (fun j => b.getD j ' ' = c)

/-- The autojunk rule of `__chain_b`: for `len(b) ≥ 200`, elements occurring
more than `len(b) // 100 + 1` times are "popular" and dropped from `b2j`. -/
def popularCh (b : List Char) (c : Char) : Bool :=
  200 ≤ b.length && b.length / 100 + 1 < (positionsOf b c).length

def b2jOf (b : List Char) (c : Char) : List Nat :=
  if popularCh b c then [] else positionsOf b c

/-- `j2len.get(j, 0)` on an association list. -/
def lookupD : List (Nat × Nat) → Nat → Nat
  | [], _ => 0
  | (k, v) :: rest, j => if k = j then v else lookupD rest j

/-- A matching block `(besti, bestj, bestsize)`. -/
structure Blk where
  bi : Nat
  bj : Nat
  bs : Nat
deriving DecidableEq, Repr

/-- Inner loop of `find_longest_match` for one row `i`: walk the ascending
occurrence list of `a[i]` in `b`, skipping `j < blo`, breaking at `j ≥ bhi`,
building the new `j2len` and improving the best block on strict increase. -/
def processRow (i blo bhi : Nat) (prev : List (Nat × Nat)) :
    List Nat → List (Nat × Nat) → Blk → List (Nat × Nat) × Blk
  | [], acc, best => (acc, best)
  | j :: js, acc, best =>
    if j < blo then processRow i blo bhi prev js acc best
    else if bhi ≤ j then (acc, best)
    else
      processRow i blo bhi prev js
        ((j, (if j = 0 then 0 else lookupD prev (j - 1)) + 1) :: acc)
        (if best.bs < (if j = 0 then 0 else lookupD prev (j - 1)) + 1 then
          Blk.mk (i + 1 - ((if j = 0 then 0 else lookupD prev (j - 1)) + 1))
            (j + 1 - ((if j = 0 then 0 else lookupD prev (j - 1)) + 1))
            ((if j = 0 then 0 else lookupD prev (j - 1)) + 1)
        else best)

/-- Row loop of `find_longest_match`: rows `alo, alo+1, …` (`cnt` rows). -/
def flmRows (a : List Char) (b2j : Char → List Nat) (blo bhi : Nat) :
    Nat → Nat → List (Nat × Nat) → Blk → Blk
  | _, 0, _, best => best
  | i, cnt + 1, prev, best =>
    let st := processRow i blo bhi prev (b2j (a.getD i ' ')) [] best
    flmRows a b2j blo bhi (i + 1) cnt st.1 st.2

/-- Leftward non-junk extension loop (`bjunk` is empty, so the junk loops of
`find_longest_match` never fire). Fuel bounds the number of steps. -/
def extLeft (a b : List Char) (alo blo : Nat) : Nat → Blk → Blk
  | 0, best => best
  | fuel + 1, best =>
    if alo < best.bi ∧ blo < best.bj ∧
        a.getD (best.bi - 1) ' ' = b.getD (best.bj - 1) ' ' then
      extLeft a b alo blo fuel (Blk.mk (best.bi - 1) (best.bj - 1) (best.bs + 1))
    else best

/-- Rightward non-junk extension loop. -/
def extRight (a b : List Char) (ahi bhi : Nat) : Nat → Blk → Blk
  | 0, best => best
  | fuel + 1, best =>
    if best.bi + best.bs < ahi ∧ best.bj + best.bs < bhi ∧
        a.getD (best.bi + best.bs) ' ' = b.getD (best.bj + best.bs) ' ' then
      extRight a b ahi bhi fuel (Blk.mk best.bi best.bj (best.bs + 1))
    else best

/-- `find_longest_match(alo, ahi, blo, bhi)`. -/
def flm (a b : List Char) (b2j : Char → List Nat) (alo ahi blo bhi : Nat) : Blk :=
  let best := flmRows a b2j blo bhi alo (ahi - alo) [] (Blk.mk alo blo 0)
  let best2 := extLeft a b alo blo best.bi best
  extRight a b ahi bhi (ahi - (best2.bi + best2.bs)) best2

/-- Total size of the matching blocks of `get_matching_blocks` restricted to a
region: the recursion of the queue in `get_matching_blocks` (the queue order
does not matter for the sum). -/
def msum (a b : List Char) (b2j : Char → List Nat) :
    Nat → Nat → Nat → Nat → Nat → Nat
  | 0, _, _, _, _ => 0
  | fuel + 1, alo, ahi, blo, bhi =>
    let m := flm a b b2j alo ahi blo bhi
    if m.bs = 0 then 0
    else m.bs
      + (if alo < m.bi ∧ blo < m.bj then msum a b b2j fuel alo m.bi blo m.bj else 0)
      + (if m.bi + m.bs < ahi ∧ m.bj + m.bs < bhi then
          msum a b b2j fuel (m.bi + m.bs) ahi (m.bj + m.bs) bhi else 0)

/-- Total matched size used by `ratio()` on the full sequences. -/
def totalMatches (a b : List Char) : Nat :=
  msum a b (b2jOf b) (a.length + b.length) 0 a.length 0 b.length

/-- `SequenceMatcher.ratio()` (via `_calculate_ratio`). -/
def ratioQ (a b : List Char) : ℚ :=
  if a.length + b.length = 0 then 1
  else mkRat (2 * totalMatches a b : Int) (a.length + b.length)

/-! ## `lexical_similarity` and `semantic_similarity` -/

/-- The body of `lexical_similarity` on the two normalized strings. -/
def lexCore (a b : List Char) : ℚ :=
  if a.isEmpty && b.isEmpty then 1
  else if a.isEmpty || b.isEmpty then 0
  else qAdd (qMul (mkRat 55 100) (ratioQ a b)) (qMul (mkRat 45 100) (jaccardSim a b))

def lexicalSimilarity (x y : String) : ℚ :=
  lexCore (normChars x.data) (normChars y.data)

/-- `semantic_similarity` with the embedding backend disabled (the default:
`ENABLE_EMBEDDINGS` unset), so `_embedding_similarity` returns `None` and the
lexical fallback is taken. -/
def semanticSimilarity (x y : String) : ℚ :=
  if (stripWs x.data).isEmpty && (stripWs y.data).isEmpty then 1
  else if (stripWs x.data).isEmpty || (stripWs y.data).isEmpty then 0
  else lexicalSimilarity (String.mk (stripWs x.data)) (String.mk (stripWs y.data))

/-! ## Regex models: `NUMBER_PATTERN` and `TIME_OR_UNIT_PATTERN`

`NUMBER_PATTERN = \b\d+(?::\d{2})?(?:\.\d+)?\b`.  Because every character the
optional groups could release is a digit (a word character), shrinking the
greedy `\d+`/`\.\d+` runs can never make the trailing `\b` succeed, so the
backtracking order reduces to trying the four option combinations
(colon+dot, colon, dot, plain) over maximal digit runs. -/

/-- `\b` between a word character just consumed and the remaining input:
succeeds at end of input or before a non-word character. -/
def tailBoundary (r : List Char) : Bool :=
  match r with
  | [] => true
  | c :: _ => !isWordCh c

/-- `\b` before the current position, given the previous character. -/
def boundaryBefore (prev : Option Char) : Bool :=
  match prev with
  | none => true
  | some p => !isWordCh p

/-- Try `(?:\.\d+)?` with the group present: consume `.` and a maximal
nonempty digit run. -/
def candDot (acc : List Char) (r : List Char) : Option (List Char × List Char) :=
  match r with
  | '.' :: r2 =>
    let es := r2.takeWhile isDigitCh
    if es.isEmpty then none else some (acc ++ '.' :: es, r2.drop es.length)
  | _ => none

/-- Match `NUMBER_PATTERN` at the current position (caller has checked the
leading `\b` and that the head is a digit); returns the matched characters
and the rest.  Candidates are ordered by the regex backtracking order. -/
def matchNumberAt (s : List Char) : Option (List Char × List Char) :=
  let ds := s.takeWhile isDigitCh
  let rest1 := s.drop ds.length
  let colonOpt : Option (List Char × List Char) :=
    match rest1 with
    | ':' :: a :: b :: r =>
      if isDigitCh a && isDigitCh b then some (ds ++ [':', a, b], r) else none
    | _ => none
  let cands : List (List Char × List Char) :=
    (match colonOpt with
     | some (m, r) =>
       (match candDot m r with | some p => [p] | none => []) ++ [(m, r)]
     | none => [])
    ++ (match candDot ds rest1 with | some p => [p] | none => [])
    ++ [(ds, rest1)]
  cands.find? (fun p => tailBoundary p.2)

/-- `NUMBER_PATTERN.findall`: scan left to right, non-overlapping, advancing
past each match (or by one character on failure). -/
def findNumbersAux : Nat → Option Char → List Char → List (List Char)
  | 0, _, _ => []
  | _ + 1, _, [] => []
  | fuel + 1, prev, c :: rest =>
    if boundaryBefore prev && isDigitCh c then
      match matchNumberAt (c :: rest) with
      | some (m, r) => m :: findNumbersAux fuel (some (m.getLastD c)) r
      | none => findNumbersAux fuel (some c) rest
    else findNumbersAux fuel (some c) rest

def findNumbers (s : List Char) : List (List Char) :=
  findNumbersAux (s.length + 1) none s

/-- `_extract_numbers`: `set(NUMBER_PATTERN.findall(text))`, as a
duplicate-free list. -/
def extractNumbers (s : String) : List (List Char) := (findNumbers s.data).dedup

/-- `NUMBER_PATTERN.sub(" ", text)` (`_remove_numbers`). -/
def removeNumbersAux : Nat → Option Char → List Char → List Char
  | 0, _, rest => rest
  | _ + 1, _, [] => []
  | fuel + 1, prev, c :: rest =>
    if boundaryBefore prev && isDigitCh c then
      match matchNumberAt (c :: rest) with
      | some (m, r) => ' ' :: removeNumbersAux fuel (some (m.getLastD c)) r
      | none => c :: removeNumbersAux fuel (some c) rest
    else c :: removeNumbersAux fuel (some c) rest

def removeNumbers (s : String) : String :=
  String.mk (removeNumbersAux (s.data.length + 1) none s.data)

/-- The unit alternatives of `TIME_OR_UNIT_PATTERN`, with plurals expanded. -/
def unitVariants : List (List Char) :=
  ["hours", "hour", "hrs", "hr", "days", "day", "landings", "landing",
   "sectors", "sector", "minutes", "minute", "mins", "min", "kg", "auw"].map
    String.data

/-- Case-insensitive prefix test (the pattern carries `re.I`). -/
def lowerPrefixOf : List Char → List Char → Bool
  | [], _ => true
  | _ :: _, [] => false
  | c :: cs, d :: ds => c = lowerCh d && lowerPrefixOf cs ds

/-- The `\s*(unit)?\b` tail of `TIME_OR_UNIT_PATTERN`, at the position right
after the numeric part (whose last character is a digit).  With the empty
unit, only the zero-whitespace branch can satisfy `\b`; a unit word can only
start after the whole whitespace run. -/
def timeUnitTail (rest : List Char) : Bool :=
  tailBoundary rest ||
  (let r2 := rest.dropWhile isWs
   unitVariants.any (fun u => lowerPrefixOf u r2 && tailBoundary (r2.drop u.length)))

/-- The number part of `TIME_OR_UNIT_PATTERN` shares `NUMBER_PATTERN`'s
structure; return the rest after each available option combination. -/
def numTails (s : List Char) : List (List Char) :=
  let ds := s.takeWhile isDigitCh
  let rest1 := s.drop ds.length
  let colonOpt : Option (List Char) :=
    match rest1 with
    | ':' :: a :: b :: r => if isDigitCh a && isDigitCh b then some r else none
    | _ => none
  (match colonOpt with
   | some r =>
     (match candDot [] r with | some p => [p.2] | none => []) ++ [r]
   | none => [])
  ++ (match candDot [] rest1 with | some p => [p.2] | none => [])
  ++ [rest1]

/-- `TIME_OR_UNIT_PATTERN.search(text) is not None`. -/
def searchTimeUnitAux : Option Char → List Char → Bool
  | _, [] => false
  | prev, c :: rest =>
    (boundaryBefore prev && isDigitCh c && (numTails (c :: rest)).any timeUnitTail)
    || searchTimeUnitAux (some c) rest

def searchTimeUnit (s : String) : Bool := searchTimeUnitAux none s.data

/-! ## Term sets and text predicates -/

/-- Substring containment, `needle in hay`. -/
def isPrefixChs : List Char → List Char → Bool
  | [], _ => true
  | _ :: _, [] => false
  | c :: cs, d :: ds => c = d && isPrefixChs cs ds

def containsSub (hay needle : List Char) : Bool :=
  hay.tails.any (fun t => isPrefixChs needle t)

def regulatoryTerms : List (List Char) :=
  ["shall", "must", "required", "limit", "maximum", "minimum", "rest",
   "flight", "duty", "crew", "operator", "standby", "landing", "applicable",
   "applicability", "fdtl", "dgca", "not exceed"].map String.data

def scopeTerms : List (List Char) :=
  ["applicable", "applicability", "all operators", "scheduled",
   "non-scheduled", "general aviation", "private", "public sector",
   "state governments", "except", "only"].map String.data

def opsNumericTerms : List (List Char) :=
  ["flight time", "flight duty", "fdp", "rest", "standby", "weekly rest",
   "landings", "sectors", "wocl", "applicable", "auw", "maximum", "minimum",
   "not exceed"].map String.data

def noisePhrases : List (List Char) :=
  ["table of contents", "page", "issue", "dated", "effective", "dgca - car",
   "car -"].map String.data

/-- `_contains_regulatory_signal`. -/
def containsRegulatorySignal (text : String) : Bool :=
  let low := normChars text.data
  regulatoryTerms.any (fun t => containsSub low t)

/-- `_contains_scope_signal`. -/
def containsScopeSignal (text : String) : Bool :=
  let low := normChars text.data
  scopeTerms.any (fun t => containsSub low t)

/-- Python `str.split()`: maximal runs of non-whitespace. -/
def wsSplitAux : List Char → List Char → List (List Char)
  | acc, [] => if acc.isEmpty then [] else [acc.reverse]
  | acc, c :: rest =>
    if isWs c then
      if acc.isEmpty then wsSplitAux [] rest else acc.reverse :: wsSplitAux [] rest
    else wsSplitAux (c :: acc) rest

def wsSplit (s : List Char) : List (List Char) := wsSplitAux [] s

/-- `_is_substantive_rule`. -/
def isSubstantiveRule (text : String) : Bool :=
  let low := normChars text.data
  if low.length < 45 then false
  else if (wsSplit low).length < 8 then false
  else containsRegulatorySignal (String.mk low) || searchTimeUnit (String.mk low)

/-- `_looks_like_noise`. -/
def looksLikeNoise (text : String) : Bool :=
  if text = "" then true
  else
    let low := normChars text.data
    if low.length < 8 then true
    else if (noisePhrases.any (fun p => containsSub low p))
        && !containsRegulatorySignal (String.mk low) then true
    else
      let letters := (low.filter isAlphaCh).length
      let digits := (low.filter isDigitCh).length
      if letters = 0 then true
      else
        let spaces := (low.filter (fun c => c = ' ')).length
        let symbols := low.length - letters - digits - spaces
        if 7 * letters < 10 * symbols then true
        else if letters < 6 && 0 < digits then true
        else false

/-- `_numeric_delta`: `(sorted(new - old), sorted(old - new))` as
`(added, removed)`. -/
def insSorted (le : α → α → Bool) (x : α) : List α → List α
  | [] => [x]
  | y :: ys => if le x y then x :: y :: ys else y :: insSorted le x ys

def stableSortBy (le : α → α → Bool) : List α → List α
  | [] => []
  | x :: xs => insSorted le x (stableSortBy le xs)

/-- Python string `<=`: lexicographic on code points. -/
def lexLe : List Char → List Char → Bool
  | [], _ => true
  | _ :: _, [] => false
  | c :: cs, d :: ds => c < d || (c = d && lexLe cs ds)

def numericDelta (oldText newText : String) : List String × List String :=
  let os := extractNumbers oldText
  let ns := extractNumbers newText
  ((stableSortBy lexLe (ns.filter (fun x => x ∉ os))).map String.mk,
   (stableSortBy lexLe (os.filter (fun x => x ∉ ns))).map String.mk)

/-- `_is_operational_numeric_change`. -/
def isOperationalNumericChange (oldText newText : String) : Bool :=
  let os := extractNumbers oldText
  let ns := extractNumbers newText
  if os.all (fun x => x ∈ ns) && ns.all (fun x => x ∈ os) then false
  else
    let combined := normChars (oldText.data ++ ' ' :: newText.data)
    let symDiff := os.filter (fun x => x ∉ ns) ++ ns.filter (fun x => x ∉ os)
    if symDiff.all (fun x => ('.' ∈ x) && (':' ∉ x))
        && (["para", "sub para", "section", "table"].map String.data).any
            (fun w => containsSub combined w) then false
    else
      (opsNumericTerms.any (fun t => containsSub combined t))
      && searchTimeUnit (String.mk combined)

/-! ## Data model -/

/-- A section record as supplied by the segmentation collaborator.  A missing
key and a stored `None` both coalesce to the empty string in every consumer,
and are modelled by `none`.  The `section` field stamped by `compare_sections`
is modelled by carrying the mapping key alongside (`String × Sec`). -/
structure Sec where
  heading : Option String
  body : Option String
  meaning : Option String
deriving DecidableEq, Repr

def headingOf (s : Sec) : String := s.heading.getD ""

def bodyOf (s : Sec) : String := s.body.getD ""

def truthy (o : Option String) : Option String :=
  match o with
  | none => none
  | some s => if s = "" then none else some s

/-- `_comparison_text`: first truthy of meaning, body, heading, stripped. -/
def comparisonText (s : Sec) : String :=
  let base :=
    match truthy s.meaning with
    | some t => t
    | none =>
      match truthy s.body with
      | some t => t
      | none => (truthy s.heading).getD ""
  String.mk (stripWs base.data)

/-- A change record (the dictionary built by `_build_change`); the redundant
mirror fields (`section`, `section_old`, `section_new`, `change_type`) are
kept because the validator mutates them. -/
structure Change where
  changeId : String
  ctype : String
  subtype : String
  severity : String
  oldSection : String
  newSection : String
  description : String
  whyChange : String
  sectionField : String
  sectionOld : String
  sectionNew : String
  topic : String
  changeTypeField : String
  oldText : String
  newText : String
  similarityScore : ℚ
  deltaAdded : List String
  deltaRemoved : List String
deriving DecidableEq, Repr

/-- Python `round(q, 3)` on the exact rational: round half to even. -/
def round3 (q : ℚ) : ℚ :=
  let m := qMul q (mkRat 1000 1)
  let fl := Int.fdiv m.num m.den
  let frac := qSub m (mkRat fl 1)
  let r :=
    if frac < mkRat 1 2 then fl
    else if mkRat 1 2 < frac then fl + 1
    else if fl % 2 = 0 then fl else fl + 1
  mkRat r 1000

/-- `f"C{next(_change_id_gen):04d}"` with the counter made explicit. -/
def formatChangeId (n : Nat) : String :=
  let s := toString n
  "C" ++ String.mk (List.replicate (4 - s.length) '0') ++ s

/-- `_build_change`; `n` is the current value of the id counter. -/
def buildChange (oldS newS : Option (String × Sec))
    (ctype severity subtype description why : String) (score : ℚ) (n : Nat) :
    Change :=
  let oldSection := match oldS with | some p => p.1 | none => ""
  let newSection := match newS with | some p => p.1 | none => ""
  let oldText := match oldS with | some p => comparisonText p.2 | none => ""
  let newText := match newS with | some p => comparisonText p.2 | none => ""
  let topic0 :=
    match newS with
    | some p => headingOf p.2
    | none => match oldS with | some p => headingOf p.2 | none => ""
  let delta := numericDelta oldText newText
  { changeId := formatChangeId n
    ctype := ctype
    subtype := subtype
    severity := severity
    oldSection := oldSection
    newSection := newSection
    description := description
    whyChange := why
    sectionField := if newSection = "" then oldSection else newSection
    sectionOld := oldSection
    sectionNew := newSection
    topic := if topic0 = "" then (if oldSection = "" then newSection else oldSection) else topic0
    changeTypeField := subtype
    oldText := oldText
    newText := newText
    similarityScore := round3 score
    deltaAdded := delta.1
    deltaRemoved := delta.2 }

/-- `_severity_from_text`. -/
def severityFromText (ctype subtype oldText newText : String) : String :=
  let combined := lowerStr (oldText.data ++ ' ' :: newText.data)
  if ctype = "NOISE" then "MINOR"
  else if subtype = "Numeric limit changed" || subtype = "Applicability changed" then "CRITICAL"
  else if subtype = "Rule removed" || subtype = "New rule added" then
    if isSubstantiveRule (String.mk (oldText.data ++ ' ' :: newText.data)) then "CRITICAL"
    else "MODERATE"
  else if (["shall not", "must", "not exceed", "maximum", "minimum"].map String.data).any
      (fun k => containsSub combined k) then "CRITICAL"
  else if ctype = "TRUE_CHANGE" then "MODERATE"
  else "MINOR"

/-! ## Pair scorer, matcher, classifier -/

/-- `_pair_score`. -/
def pairScore (o ns : Sec) : ℚ :=
  qAdd (qAdd (qMul (mkRat 25 100) (lexicalSimilarity (headingOf o) (headingOf ns)))
      (qMul (mkRat 65 100) (semanticSimilarity (comparisonText o) (comparisonText ns))))
    (qMul (mkRat 10 100) (lexicalSimilarity (bodyOf o) (bodyOf ns)))

/-- `_best_persistence_match`: best candidate by `0.75*sem + 0.25*head`,
first strict maximum in iteration order (`best_combo` starts below any real
combo, so the first candidate is always taken). -/
def bestPersistenceMatch (sec : Sec) (cands : List (String × Sec)) :
    Option ((String × Sec) × ℚ × ℚ × ℚ) :=
  cands.foldl
    (fun acc cand =>
      let sem := semanticSimilarity (comparisonText sec) (comparisonText cand.2)
      let head := lexicalSimilarity (headingOf sec) (headingOf cand.2)
      let combo := qAdd (qMul (mkRat 75 100) sem) (qMul (mkRat 25 100) head)
      match acc with
      | none => some (cand, sem, head, combo)
      | some (_, _, _, bc) =>
        if bc < combo then some (cand, sem, head, combo) else acc)
    none

/-- `_classify_matched_change`; returns the optional change and the id
counter after the call. -/
def classifyMatchedChange (old new : String × Sec) (score ut : ℚ) (n : Nat) :
    Option Change × Nat :=
  let oldText := comparisonText old.2
  let newText := comparisonText new.2
  let oldNorm := normChars oldText.data
  let newNorm := normChars newText.data
  let headingSim := lexicalSimilarity (headingOf old.2) (headingOf new.2)
  let textSim := semanticSimilarity oldText newText
  if oldNorm = newNorm ∨ ut ≤ score then
    if old.1 ≠ new.1 then
      (some (buildChange (some old) (some new) "STRUCTURAL_CHANGE" "MINOR" "STRUCTURAL_MOVE"
        "Section was renumbered/moved."
        "Rule text is materially the same; only numbering/location changed." score n), n + 1)
    else (none, n)
  else if looksLikeNoise oldText && looksLikeNoise newText then
    (some (buildChange (some old) (some new) "NOISE" "MINOR" "OCR/Parsing artifact"
      "Detected non-regulatory noisy text."
      "Both sides look like OCR/header/footer artifacts." score n), n + 1)
  else if headingSim < mkRat 90 100 ∧ mkRat 93 100 ≤ textSim then
    (some (buildChange (some old) (some new) "STRUCTURAL_CHANGE" "MINOR" "Heading changes"
      "Heading wording/format changed with same rule content."
      "Body meaning is effectively unchanged." score n), n + 1)
  else if old.1 ≠ new.1 ∧ mkRat 90 100 ≤ textSim then
    (some (buildChange (some old) (some new) "STRUCTURAL_CHANGE" "MINOR" "STRUCTURAL_MOVE"
      "Content moved/renumbered."
      "High semantic equivalence indicates identical rule relocated." score n), n + 1)
  else if isOperationalNumericChange oldText newText
      ∧ mkRat 84 100 ≤ semanticSimilarity (removeNumbers oldText) (removeNumbers newText) then
    (some (buildChange (some old) (some new) "TRUE_CHANGE"
      (severityFromText "TRUE_CHANGE" "Numeric limit changed" oldText newText)
      "Numeric limit changed"
      "Numeric operational limit changed."
      "Operational context is same while enforceable numeric values differ." score n), n + 1)
  else if (containsScopeSignal oldText || containsScopeSignal newText)
      ∧ textSim < mkRat 84 100 then
    (some (buildChange (some old) (some new) "TRUE_CHANGE"
      (severityFromText "TRUE_CHANGE" "Applicability changed" oldText newText)
      "Applicability changed"
      "Applicability/scope language changed."
      "Operator categories or scope boundaries materially differ." score n), n + 1)
  else if (containsRegulatorySignal oldText || containsRegulatorySignal newText)
      ∧ textSim < mkRat 66 100
      ∧ (isSubstantiveRule oldText || isSubstantiveRule newText) then
    (some (buildChange (some old) (some new) "TRUE_CHANGE"
      (severityFromText "TRUE_CHANGE" "Operational requirement changed" oldText newText)
      "Operational requirement changed"
      "Operational requirement text changed."
      "Pilot/operator action could change due to semantic requirement difference." score n), n + 1)
  else
    (some (buildChange (some old) (some new) "SEMANTIC_MINOR" "MINOR"
      "Clarification without rule change"
      "Wording/clarity changes detected."
      "Difference appears non-operational or uncertain." score n), n + 1)

/-- `_classify_unmatched_old`. -/
def classifyUnmatchedOld (old : String × Sec) (newSecs : List (String × Sec))
    (relocThr : ℚ) (n : Nat) : Change × Nat :=
  let oldText := comparisonText old.2
  if looksLikeNoise oldText then
    (buildChange (some old) none "NOISE" "MINOR" "Non-regulatory text"
      "Removed noisy/non-regulatory segment."
      "Text resembles metadata/header/footer/OCR noise." 0 n, n + 1)
  else
    match bestPersistenceMatch old.2 newSecs with
    | some (cand, sem, head, combo) =>
      if relocThr ≤ combo ∨ mkRat 80 100 ≤ sem ∨ mkRat 88 100 ≤ head then
        (buildChange (some old) (some cand) "STRUCTURAL_CHANGE" "MINOR" "MOVED_RULE"
          "Rule moved/renumbered with same meaning."
          "Semantically equivalent rule exists elsewhere in new document." combo n, n + 1)
      else if !isSubstantiveRule oldText then
        (buildChange (some old) none "SEMANTIC_MINOR" "MINOR"
          "Possible structural split/merge"
          "Small unmatched fragment likely due to structure changes."
          "No strong evidence of operational requirement removal." combo n, n + 1)
      else
        (buildChange (some old) none "TRUE_CHANGE"
          (severityFromText "TRUE_CHANGE" "Rule removed" oldText "") "Rule removed"
          "A previously present rule is missing in new document."
          "No semantically equivalent rule found across the new document." 0 n, n + 1)
    | none =>
      if !isSubstantiveRule oldText then
        (buildChange (some old) none "SEMANTIC_MINOR" "MINOR"
          "Possible structural split/merge"
          "Small unmatched fragment likely due to structure changes."
          "No strong evidence of operational requirement removal." 0 n, n + 1)
      else
        (buildChange (some old) none "TRUE_CHANGE"
          (severityFromText "TRUE_CHANGE" "Rule removed" oldText "") "Rule removed"
          "A previously present rule is missing in new document."
          "No semantically equivalent rule found across the new document." 0 n, n + 1)

/-- `_classify_unmatched_new`. -/
def classifyUnmatchedNew (new : String × Sec) (oldSecs : List (String × Sec))
    (relocThr : ℚ) (n : Nat) : Change × Nat :=
  let newText := comparisonText new.2
  if looksLikeNoise newText then
    (buildChange none (some new) "NOISE" "MINOR" "Non-regulatory text"
      "Added noisy/non-regulatory segment."
      "Text resembles metadata/header/footer/OCR noise." 0 n, n + 1)
  else
    match bestPersistenceMatch new.2 oldSecs with
    | some (cand, sem, head, combo) =>
      if relocThr ≤ combo ∨ mkRat 80 100 ≤ sem ∨ mkRat 88 100 ≤ head then
        (buildChange (some cand) (some new) "STRUCTURAL_CHANGE" "MINOR" "MOVED_RULE"
          "Rule moved/renumbered with same meaning."
          "Semantically equivalent rule exists elsewhere in old document." combo n, n + 1)
      else if !isSubstantiveRule newText then
        (buildChange none (some new) "SEMANTIC_MINOR" "MINOR"
          "Possible structural split/merge"
          "Small unmatched fragment likely due to structure changes."
          "No strong evidence of operational requirement addition." combo n, n + 1)
      else
        (buildChange none (some new) "TRUE_CHANGE"
          (severityFromText "TRUE_CHANGE" "New rule added" "" newText) "New rule added"
          "A new rule appears in the updated document."
          "No semantically equivalent predecessor found across the old document." 0 n, n + 1)
    | none =>
      if !isSubstantiveRule newText then
        (buildChange none (some new) "SEMANTIC_MINOR" "MINOR"
          "Possible structural split/merge"
          "Small unmatched fragment likely due to structure changes."
          "No strong evidence of operational requirement addition." 0 n, n + 1)
      else
        (buildChange none (some new) "TRUE_CHANGE"
          (severityFromText "TRUE_CHANGE" "New rule added" "" newText) "New rule added"
          "A new rule appears in the updated document."
          "No semantically equivalent predecessor found across the old document." 0 n, n + 1)

/-! ## Validator passes -/

/-- A change downgraded by `_operational_impact_pass`. -/
def downgradeOp (ch : Change) : Change :=
  { ch with
    ctype := "SEMANTIC_MINOR"
    subtype := "Clarification without rule change"
    changeTypeField := "Clarification without rule change"
    severity := "MINOR"
    description := "Difference appears non-operational after validation pass."
    whyChange := "Second-pass filter: no clear operator action change detected." }

/-- `_operational_impact_pass`. -/
def opImpactPass (changes : List Change) : List Change :=
  changes.map (fun ch =>
    if ch.ctype ≠ "TRUE_CHANGE" then ch
    else if ch.subtype = "Numeric limit changed" || ch.subtype = "Applicability changed" then ch
    else if (ch.subtype = "Rule removed" || ch.subtype = "New rule added")
        && isSubstantiveRule (String.mk (ch.oldText.data ++ ' ' :: ch.newText.data)) then ch
    else if semanticSimilarity ch.oldText ch.newText < mkRat 64 100
        ∧ (isSubstantiveRule ch.oldText || isSubstantiveRule ch.newText) then ch
    else downgradeOp ch)

def strLe (a b : String) : Bool := lexLe a.data b.data

/-- The merge step of `_dedupe_by_topic`. -/
def mergeInto (ex ch : Change) : Change :=
  let olds := ([ex.oldSection, ch.oldSection].filter (fun s => s ≠ "")).dedup
  let news := ([ex.newSection, ch.newSection].filter (fun s => s ≠ "")).dedup
  let oldJ := String.intercalate "," (stableSortBy strLe olds)
  let newJ := String.intercalate "," (stableSortBy strLe news)
  { ex with
    oldSection := oldJ
    newSection := newJ
    sectionOld := oldJ
    sectionNew := newJ
    sectionField := if newJ = "" then oldJ else newJ
    similarityScore := max ex.similarityScore ch.similarityScore }

def dedupeMergeCond (ex ch : Change) : Bool :=
  let topicSim := lexicalSimilarity (String.mk (normChars ch.topic.data))
    (String.mk (normChars ex.topic.data))
  let textSim := semanticSimilarity
    (String.mk (ch.oldText.data ++ ' ' :: ch.newText.data))
    (String.mk (ex.oldText.data ++ ' ' :: ex.newText.data))
  (ex.ctype = ch.ctype && ex.subtype = ch.subtype)
    && (mkRat 92 100 ≤ topicSim || mkRat 94 100 ≤ textSim)

/-- Merge `ch` into the first eligible element of the accumulator. -/
def tryMerge (ch : Change) : List Change → Option (List Change)
  | [] => none
  | ex :: rest =>
    if dedupeMergeCond ex ch then some (mergeInto ex ch :: rest)
    else match tryMerge ch rest with
      | some rest2 => some (ex :: rest2)
      | none => none

def dedupeAux : List Change → List Change → List Change
  | acc, [] => acc
  | acc, ch :: rest =>
    match tryMerge ch acc with
    | some acc2 => dedupeAux acc2 rest
    | none => dedupeAux (acc ++ [ch]) rest

/-- `_dedupe_by_topic`. -/
def dedupeByTopic (changes : List Change) : List Change := dedupeAux [] changes

/-- `_true_change_confidence`. -/
def trueChangeConfidence (ch : Change) : ℚ :=
  if ch.subtype = "Numeric limit changed" then 1
  else if ch.subtype = "Applicability changed" then mkRat 95 100
  else
    let text := String.mk (ch.oldText.data ++ ' ' :: ch.newText.data)
    let s1 := mkRat 40 100
    let s2 := if isSubstantiveRule text then qAdd s1 (mkRat 25 100) else s1
    let s3 := if containsRegulatorySignal text then qAdd s2 (mkRat 20 100) else s2
    let s4 := if searchTimeUnit text then qAdd s3 (mkRat 10 100) else s3
    let s5 := qAdd s4 (max 0 (qSub (mkRat 10 100) (qMul ch.similarityScore (mkRat 5 100))))
    min 1 s5

/-- A change downgraded by `_cap_over_detection`. -/
def downgradeCap (ch : Change) : Change :=
  { ch with
    ctype := "SEMANTIC_MINOR"
    subtype := "Clarification without rule change"
    changeTypeField := "Clarification without rule change"
    severity := "MINOR"
    description := "Auto-tightened due to high TRUE_CHANGE volume."
    whyChange := "Low confidence compared with stronger operational changes." }

/-- `_cap_over_detection`. -/
def capOverDetection (changes : List Change) (maxTrueChanges : Nat) : List Change :=
  let trueChanges := changes.filter (fun c => c.ctype = "TRUE_CHANGE")
  if trueChanges.length ≤ 50 then changes
  else
    let ranked := stableSortBy
      (fun a b => decide (trueChangeConfidence b ≤ trueChangeConfidence a)) trueChanges
    let keepIds := (ranked.take maxTrueChanges).map (fun c => c.changeId)
    changes.map (fun ch =>
      if ch.ctype ≠ "TRUE_CHANGE" then ch
      else if ch.changeId ∈ keepIds then ch
      else downgradeCap ch)

/-- `_validate_changes`. -/
def validateChanges (changes : List Change) (strictMode includeNonTrue : Bool) :
    List Change :=
  let validated := capOverDetection (dedupeByTopic (opImpactPass changes)) 35
  validated.filter (fun ch =>
    ch.ctype ≠ "NOISE" && !(strictMode && !includeNonTrue && ch.ctype ≠ "TRUE_CHANGE"))

/-! ## The matcher and `compare_sections` -/

structure MatchState where
  mo : List String
  mn : List String
  ms : List (String × String × ℚ)
deriving Repr

/-- The greedy acceptance loop shared by the two matching passes: break below
the threshold, skip already-matched sides, otherwise accept, recording the
score transformed by `rec`. -/
def greedyGen (rec : ℚ → ℚ) (thr : ℚ) : List (ℚ × String × String) → MatchState → MatchState
  | [], st => st
  | (sc, o, ni) :: rest, st =>
    if sc < thr then st
    else if o ∈ st.mo ∨ ni ∈ st.mn then greedyGen rec thr rest st
    else greedyGen rec thr rest ⟨o :: st.mo, ni :: st.mn, st.ms ++ [(o, ni, rec sc)]⟩

/-- The full-signal pass records the pair score itself. -/
def greedyPass (thr : ℚ) : List (ℚ × String × String) → MatchState → MatchState :=
  greedyGen (fun sc => sc) thr

/-- The heading-fallback pass records `heading_similarity * 0.92`. -/
def greedyPassH (thr : ℚ) : List (ℚ × String × String) → MatchState → MatchState :=
  greedyGen (fun hs => qMul hs (mkRat 92 100)) thr

def defaultSec : Sec := ⟨none, none, none⟩

def lookupSec (l : List (String × Sec)) (k : String) : Sec :=
  (List.lookup k l).getD defaultSec

/-- Descending stable order on scored pairs (`sort(key=x[0], reverse=True)`). -/
def scoreDesc (p q : ℚ × String × String) : Bool := decide (q.1 ≤ p.1)

/-- The matching stage of `compare_sections`: the sorted full-signal greedy
pass followed by the heading-fallback pass over the still-unmatched sides. -/
def matchStage (oldSecs newSecs : List (String × Sec)) (matchThr hfThr : ℚ) :
    MatchState :=
  let scored := (oldSecs.map (fun o =>
    newSecs.map (fun ni => (pairScore o.2 ni.2, o.1, ni.1)))).flatten
  let st1 := greedyPass matchThr (stableSortBy scoreDesc scored) ⟨[], [], []⟩
  let headingPairs := ((oldSecs.filter (fun o => !decide (o.1 ∈ st1.mo))).map (fun o =>
    (newSecs.filter (fun ni => !decide (ni.1 ∈ st1.mn))).map (fun ni =>
      (lexicalSimilarity (headingOf o.2) (headingOf ni.2), o.1, ni.1)))).flatten
  greedyPassH hfThr (stableSortBy scoreDesc headingPairs) st1

/-- Classification of the accepted matches, threading the id counter. -/
def classifyMatchedFold (oldSecs newSecs : List (String × Sec)) :
    List (String × String × ℚ) → Nat → List Change × Nat
  | [], n => ([], n)
  | (o, ni, sc) :: rest, n =>
    let res := classifyMatchedChange (o, lookupSec oldSecs o) (ni, lookupSec newSecs ni)
      sc (mkRat 95 100) n
    let tail := classifyMatchedFold oldSecs newSecs rest res.2
    match res.1 with
    | some c => (c :: tail.1, tail.2)
    | none => tail

/-- Classification of the unmatched-old sections, threading the id counter. -/
def classifyUnOldFold (newSecs : List (String × Sec)) (mo : List String) (relocThr : ℚ) :
    List (String × Sec) → Nat → List Change × Nat
  | [], n => ([], n)
  | o :: rest, n =>
    if o.1 ∈ mo then classifyUnOldFold newSecs mo relocThr rest n
    else
      let res := classifyUnmatchedOld o newSecs relocThr n
      let tail := classifyUnOldFold newSecs mo relocThr rest res.2
      (res.1 :: tail.1, tail.2)

/-- Classification of the unmatched-new sections, threading the id counter. -/
def classifyUnNewFold (oldSecs : List (String × Sec)) (mn : List String) (relocThr : ℚ) :
    List (String × Sec) → Nat → List Change × Nat
  | [], n => ([], n)
  | ni :: rest, n =>
    if ni.1 ∈ mn then classifyUnNewFold oldSecs mn relocThr rest n
    else
      let res := classifyUnmatchedNew ni oldSecs relocThr n
      let tail := classifyUnNewFold oldSecs mn relocThr rest res.2
      (res.1 :: tail.1, tail.2)

/-- The raw change list before validation (matched classifications, then
unmatched-old, then unmatched-new), with the id counter starting at `n0`. -/
def rawChanges (oldSecs newSecs : List (String × Sec))
    (matchThr hfThr relocThr : ℚ) (n0 : Nat) : List Change :=
  let st := matchStage oldSecs newSecs matchThr hfThr
  let mres := classifyMatchedFold oldSecs newSecs st.ms n0
  let ores := classifyUnOldFold newSecs st.mo relocThr oldSecs mres.2
  let nres := classifyUnNewFold oldSecs st.mn relocThr newSecs ores.2
  mres.1 ++ ores.1 ++ nres.1

def sevRank (s : String) : Nat :=
  if s = "CRITICAL" then 0 else if s = "MODERATE" then 1
  else if s = "MINOR" then 2 else 3

/-- The final ordering key comparison: `(severity rank, change id)`
ascending, stable. -/
def sevIdLe (c d : Change) : Bool :=
  sevRank c.severity < sevRank d.severity
  || (sevRank c.severity = sevRank d.severity && strLe c.changeId d.changeId)

/-- `compare_sections` with the id counter made explicit (`n0` models the
current value of the process-wide `_change_id_gen`). -/
def compareSections (oldSecs newSecs : List (String × Sec))
    (matchThr hfThr relocThr : ℚ) (strictMode includeNonTrue : Bool) (n0 : Nat) :
    List Change :=
  let changes := rawChanges oldSecs newSecs matchThr hfThr relocThr n0
  stableSortBy sevIdLe (validateChanges changes strictMode includeNonTrue)

/-- `compare_sections` with all keyword defaults
(`match_threshold=0.58`, `heading_fallback_threshold=0.82`,
`relocation_threshold=0.78`, `strict_mode=True`, `include_non_true=False`). -/
def compareSectionsDefault (oldSecs newSecs : List (String × Sec)) (n0 : Nat) :
    List Change :=
  compareSections oldSecs newSecs (mkRat 58 100) (mkRat 82 100) (mkRat 78 100) true false n0

/-- The old mapping of the numeric-limit scenario. -/
def c1Old : List (String × Sec) :=
  [("6.1", ⟨some "Flight duty period limit",
    some "The flight duty period shall not exceed 13 hours.", none⟩)]

/-- The new mapping of the numeric-limit scenario. -/
def c1New : List (String × Sec) :=
  [("6.1", ⟨some "Flight duty period limit",
    some "The flight duty period shall not exceed 11 hours.", none⟩)]

/-- The severity invariant: non-TRUE_CHANGE record types carry severity
MINOR; TRUE_CHANGE records carry CRITICAL or MODERATE. -/
def sevInv (c : Change) : Bool :=
  if c.ctype = "TRUE_CHANGE" then
    decide (c.severity = "CRITICAL") || decide (c.severity = "MODERATE")
  else if c.ctype = "NOISE" ∨ c.ctype = "STRUCTURAL_CHANGE" ∨ c.ctype = "SEMANTIC_MINOR" then
    decide (c.severity = "MINOR")
  else true

/-! ## Predicates used by the verification layer -/

/-- A block lies inside the region `[alo, ahi) × [blo, bhi)`. -/
def BlkValid (alo ahi blo bhi : Nat) (m : Blk) : Prop :=
  alo ≤ m.bi ∧ m.bi + m.bs ≤ ahi ∧ blo ≤ m.bj ∧ m.bj + m.bs ≤ bhi

/-- The diagonal-run condition of the inner `j2len` table on identical
sequences: matching characters, not dropped as popular, both in range. -/
def csCond (a : List Char) (i j : Nat) : Prop :=
  a.getD j ' ' = a.getD i ' ' ∧ popularCh a (a.getD i ' ') = false ∧
    i < a.length ∧ j < a.length

instance (a : List Char) (i j : Nat) : Decidable (csCond a i j) :=
  inferInstanceAs (Decidable (_ ∧ _ ∧ _ ∧ _))

/-- The value the inner-loop table holds at key `j` after row `i` when
matching a sequence against itself. -/
def cs (a : List Char) : Nat → Nat → Nat
  | 0, j => if csCond a 0 j then 1 else 0
  | i + 1, 0 => if csCond a (i + 1) 0 then 1 else 0
  | i + 1, j + 1 => if csCond a (i + 1) (j + 1) then cs a i j + 1 else 0

/-- The largest diagonal table value over the first `i` rows. -/
def maxdiag (a : List Char) : Nat → Nat
  | 0 => 0
  | i + 1 => max (maxdiag a i) (cs a i i)

/-- The inner table of the previous row: empty before row 0, bounded by the
`cs` values of row `i - 1` before row `i`. -/
def PrevRel (a : List Char) : Nat → List (Nat × Nat) → Prop
  | 0, prev => prev = []
  | i + 1, prev => ∀ e ∈ prev, e.2 ≤ cs a i e.1

/-- The previous row's table is exact at the diagonal key. -/
def PrevDiag (a : List Char) : Nat → List (Nat × Nat) → Prop
  | 0, _ => True
  | i + 1, prev => lookupD prev i = cs a i i

/-- A list of 51 TRUE_CHANGE records with distinct change ids, for the
witness of `C4_volume_cap`. -/
def c4Demo : List Change :=
  (List.range 51).map (fun i =>
    buildChange none none "TRUE_CHANGE" "MODERATE" "X" "d" "w" 0 (i + 1))

/-! ## The exact-arithmetic bridge: `mkRat` operations vs field operations -/

theorem mkRat_eq_divQ (n : Int) (d : Nat) : mkRat n d = (n : ℚ) / (d : ℚ) := by
  rw [Rat.mkRat_eq_divInt, Rat.divInt_eq_div]
  norm_cast

theorem qAdd_eq (a b : ℚ) : qAdd a b = a + b := by
  have ha : ((a.den : ℚ)) ≠ 0 := (Nat.cast_ne_zero (R := ℚ)).mpr a.den_nz
  have hb : ((b.den : ℚ)) ≠ 0 := (Nat.cast_ne_zero (R := ℚ)).mpr b.den_nz
  rw [qAdd, mkRat_eq_divQ]
  push_cast
  conv_rhs => rw [← Rat.num_div_den a, ← Rat.num_div_den b]
  field_simp

theorem qMul_eq (a b : ℚ) : qMul a b = a * b := by
  have ha : ((a.den : ℚ)) ≠ 0 := (Nat.cast_ne_zero (R := ℚ)).mpr a.den_nz
  have hb : ((b.den : ℚ)) ≠ 0 := (Nat.cast_ne_zero (R := ℚ)).mpr b.den_nz
  rw [qMul, mkRat_eq_divQ]
  push_cast
  conv_rhs => rw [← Rat.num_div_den a, ← Rat.num_div_den b]
  field_simp

theorem qSub_eq (a b : ℚ) : qSub a b = a - b := by
  have hb : ((b.den : ℚ)) ≠ 0 := (Nat.cast_ne_zero (R := ℚ)).mpr b.den_nz
  rw [qSub, qAdd_eq, mkRat_eq_divQ]
  push_cast
  conv_rhs => rw [← Rat.num_div_den b]
  field_simp
  ring

/-! ## Properties of the stable insertion sort -/

theorem insSorted_perm (le : α → α → Bool) (x : α) (l : List α) :
    (insSorted le x l).Perm (x :: l) := by
  induction l with
  | nil => simp [insSorted]
  | cons y ys ih =>
    by_cases h : le x y = true
    · simp [insSorted, h]
    · simp only [insSorted, h, if_false, Bool.false_eq_true]
      exact (ih.cons y).trans (List.Perm.swap x y ys)

theorem stableSortBy_perm (le : α → α → Bool) (l : List α) :
    (stableSortBy le l).Perm l := by
  induction l with
  | nil => simp [stableSortBy]
  | cons x xs ih =>
    exact (insSorted_perm le x (stableSortBy le xs)).trans (ih.cons x)

theorem mem_stableSortBy (le : α → α → Bool) (l : List α) (x : α) :
    x ∈ stableSortBy le l ↔ x ∈ l :=
  (stableSortBy_perm le l).mem_iff

theorem chain'_insSorted (le : α → α → Bool)
    (htot : ∀ a b, le a b = true ∨ le b a = true) (x : α) (l : List α)
    (h : List.Chain' (fun a b => le a b = true) l) :
    List.Chain' (fun a b => le a b = true) (insSorted le x l) := by
  induction l with
  | nil => simp [insSorted]
  | cons y ys ih =>
    by_cases hxy : le x y = true
    · simpa [insSorted, hxy] using h
    · have hyx : le y x = true := (htot x y).resolve_left hxy
      simp only [insSorted, hxy, if_false, Bool.false_eq_true]
      have hys := h.tail
      have hrec := ih hys
      rw [List.chain'_cons']
      constructor
      · intro z hz
        match ys, hrec, hz with
        | [], _, hz => simp [insSorted] at hz; exact hz ▸ hyx
        | w :: ws, _, hz =>
          by_cases hxw : le x w = true
          · simp only [insSorted, hxw, if_true] at hz
            simp at hz
            exact hz ▸ hyx
          · simp only [insSorted, hxw, if_false, Bool.false_eq_true] at hz
            simp at hz
            exact hz ▸ (List.chain'_cons.mp h).1
      · exact hrec

theorem chain'_stableSortBy (le : α → α → Bool)
    (htot : ∀ a b, le a b = true ∨ le b a = true) (l : List α) :
    List.Chain' (fun a b => le a b = true) (stableSortBy le l) := by
  induction l with
  | nil => simp [stableSortBy]
  | cons x xs ih => exact chain'_insSorted le htot x _ ih

/-- Inserting an element that sorts after a whole prefix. -/
theorem insSorted_append_of_not_le (le : α → α → Bool) (x : α) (A B : List α)
    (hA : ∀ y ∈ A, le x y = false) :
    insSorted le x (A ++ B) = A ++ insSorted le x B := by
  induction A with
  | nil => rfl
  | cons y ys ih =>
    have hy : le x y = false := hA y (by simp)
    simp only [List.cons_append, insSorted, hy, if_false, Bool.false_eq_true, List.append_eq]
    rw [ih (fun z hz => hA z (by simp [hz]))]

/-- Stable descending sort with all keys bounded by `c`: the key-`c` elements
form the prefix, in their original order. -/
theorem stableSortBy_filter_top (key : α → ℚ) (c : ℚ) (l : List α)
    (hb : ∀ x ∈ l, key x ≤ c) :
    stableSortBy (fun p q => decide (key q ≤ key p)) l =
      l.filter (fun x => decide (key x = c)) ++
      stableSortBy (fun p q => decide (key q ≤ key p))
        (l.filter (fun x => !decide (key x = c))) := by
  induction l with
  | nil => rfl
  | cons x xs ih =>
    have hxs : ∀ y ∈ xs, key y ≤ c := fun y hy => hb y (by simp [hy])
    have hx : key x ≤ c := hb x (by simp)
    rw [stableSortBy, ih hxs]
    by_cases hxc : key x = c
    · have h1 : (x :: xs).filter (fun y => decide (key y = c)) =
          x :: xs.filter (fun y => decide (key y = c)) := by
        simp [List.filter_cons, hxc]
      have h2 : (x :: xs).filter (fun y => !decide (key y = c)) =
          xs.filter (fun y => !decide (key y = c)) := by
        simp [List.filter_cons, hxc]
      have step : insSorted (fun p q => decide (key q ≤ key p)) x
          (xs.filter (fun y => decide (key y = c)) ++
           stableSortBy (fun p q => decide (key q ≤ key p))
             (xs.filter (fun y => !decide (key y = c)))) =
          x :: (xs.filter (fun y => decide (key y = c)) ++
           stableSortBy (fun p q => decide (key q ≤ key p))
             (xs.filter (fun y => !decide (key y = c)))) := by
        match hA : xs.filter (fun y => decide (key y = c)) with
        | [] =>
          simp only [List.nil_append]
          match hB : stableSortBy (fun p q => decide (key q ≤ key p))
              (xs.filter (fun y => !decide (key y = c))) with
          | [] => rfl
          | z :: zs =>
            have hz : z ∈ xs.filter (fun y => !decide (key y = c)) := by
              rw [← mem_stableSortBy (fun p q => decide (key q ≤ key p))]
              rw [hB]; simp
            have hzkey : key z ≤ c := hxs z (List.mem_of_mem_filter hz)
            have hd : decide (key z ≤ key x) = true := by
              rw [hxc]; exact decide_eq_true hzkey
            simp [insSorted, hd]
        | z :: zs =>
          have hz : z ∈ xs.filter (fun y => decide (key y = c)) := by rw [hA]; simp
          have hzc : key z = c := of_decide_eq_true (List.mem_filter.mp hz).2
          have hd : decide (key z ≤ key x) = true := by
            rw [hxc, hzc]; simp
          simp [insSorted, hd]
      rw [h1, h2, step, List.cons_append]
    · have hxlt : key x < c := lt_of_le_of_ne hx hxc
      have hA : ∀ y ∈ xs.filter (fun y => decide (key y = c)),
          decide (key y ≤ key x) = false := by
        intro y hy
        have hyc : key y = c := of_decide_eq_true (List.mem_filter.mp hy).2
        simp [hyc, not_le.mpr hxlt]
      rw [insSorted_append_of_not_le _ _ _ _ hA]
      have h1 : (x :: xs).filter (fun y => decide (key y = c)) =
          xs.filter (fun y => decide (key y = c)) := by
        simp [List.filter_cons, hxc]
      have h2 : (x :: xs).filter (fun y => !decide (key y = c)) =
          x :: xs.filter (fun y => !decide (key y = c)) := by
        simp [List.filter_cons, hxc]
      rw [h1, h2, stableSortBy]

/-! ## Properties of the greedy matching loop -/

theorem greedyGen_stuck (rec : ℚ → ℚ) (thr : ℚ) (l : List (ℚ × String × String))
    (st : MatchState) (h : ∀ p ∈ l, p.2.1 ∈ st.mo ∨ p.2.2 ∈ st.mn) :
    greedyGen rec thr l st = st := by
  induction l with
  | nil => rfl
  | cons p rest ih =>
    obtain ⟨sc, o, ni⟩ := p
    rw [greedyGen]
    by_cases hsc : sc < thr
    · simp [hsc]
    · have hm : o ∈ st.mo ∨ ni ∈ st.mn := h (sc, o, ni) (by simp)
      simp only [hsc, if_false]
      rw [if_pos hm]
      exact ih (fun p hp => h p (by simp [hp]))

theorem greedyGen_append (rec : ℚ → ℚ) (thr : ℚ) (l₁ l₂ : List (ℚ × String × String))
    (st : MatchState) (h : ∀ p ∈ l₁, ¬(p.1 < thr)) :
    greedyGen rec thr (l₁ ++ l₂) st = greedyGen rec thr l₂ (greedyGen rec thr l₁ st) := by
  induction l₁ generalizing st with
  | nil => rfl
  | cons p rest ih =>
    obtain ⟨sc, o, ni⟩ := p
    have hsc : ¬(sc < thr) := h (sc, o, ni) (by simp)
    simp only [List.cons_append, greedyGen, hsc, if_false]
    by_cases hm : o ∈ st.mo ∨ ni ∈ st.mn
    · rw [if_pos hm, if_pos hm]
      exact ih _ (fun p hp => h p (by simp [hp]))
    · rw [if_neg hm, if_neg hm]
      exact ih _ (fun p hp => h p (by simp [hp]))

/-- The state fields of the greedy loop: `mo`/`mn` are exactly the reversed
per-side projections of the accepted matches. -/
theorem greedyGen_fields (rec : ℚ → ℚ) (thr : ℚ) (l : List (ℚ × String × String))
    (st : MatchState)
    (hmo : st.mo = (st.ms.map (fun m => m.1)).reverse)
    (hmn : st.mn = (st.ms.map (fun m => m.2.1)).reverse) :
    (greedyGen rec thr l st).mo =
      ((greedyGen rec thr l st).ms.map (fun m => m.1)).reverse ∧
    (greedyGen rec thr l st).mn =
      ((greedyGen rec thr l st).ms.map (fun m => m.2.1)).reverse := by
  induction l generalizing st with
  | nil => exact ⟨hmo, hmn⟩
  | cons p rest ih =>
    obtain ⟨sc, o, ni⟩ := p
    rw [greedyGen]
    by_cases hsc : sc < thr
    · simp only [hsc, if_true]
      exact ⟨hmo, hmn⟩
    · simp only [hsc, if_false]
      by_cases hm : o ∈ st.mo ∨ ni ∈ st.mn
      · rw [if_pos hm]; exact ih st hmo hmn
      · rw [if_neg hm]
        refine ih _ ?_ ?_ <;> simp [hmo, hmn]

/-- Nodup of the accepted sides is preserved by the greedy loop. -/
theorem greedyGen_nodup (rec : ℚ → ℚ) (thr : ℚ) (l : List (ℚ × String × String))
    (st : MatchState)
    (hmo : st.mo = (st.ms.map (fun m => m.1)).reverse)
    (hmn : st.mn = (st.ms.map (fun m => m.2.1)).reverse)
    (hno : (st.ms.map (fun m => m.1)).Nodup)
    (hnn : (st.ms.map (fun m => m.2.1)).Nodup) :
    ((greedyGen rec thr l st).ms.map (fun m => m.1)).Nodup ∧
    ((greedyGen rec thr l st).ms.map (fun m => m.2.1)).Nodup := by
  induction l generalizing st with
  | nil => exact ⟨hno, hnn⟩
  | cons p rest ih =>
    obtain ⟨sc, o, ni⟩ := p
    rw [greedyGen]
    by_cases hsc : sc < thr
    · simp only [hsc, if_true]
      exact ⟨hno, hnn⟩
    · simp only [hsc, if_false]
      by_cases hm : o ∈ st.mo ∨ ni ∈ st.mn
      · rw [if_pos hm]; exact ih st hmo hmn hno hnn
      · rw [if_neg hm]
        push_neg at hm
        refine ih _ (by simp [hmo]) (by simp [hmn]) ?_ ?_
        · rw [List.map_append]
          refine List.Nodup.append hno (by simp) ?_
          intro x hx hx2
          simp at hx2
          subst hx2
          exact hm.1 (by rw [hmo]; simpa using hx)
        · rw [List.map_append]
          refine List.Nodup.append hnn (by simp) ?_
          intro x hx hx2
          simp at hx2
          subst hx2
          exact hm.2 (by rw [hmn]; simpa using hx)

/-! ## Validity of `find_longest_match` and the `ratio` bounds -/

theorem lookupD_mem (l : List (Nat × Nat)) (j : Nat) :
    lookupD l j = 0 ∨ (j, lookupD l j) ∈ l := by
  induction l with
  | nil => left; rfl
  | cons e rest ih =>
    obtain ⟨k, v⟩ := e
    by_cases h : k = j
    · right
      subst h
      simp [lookupD]
    · rw [lookupD, if_neg h]
      rcases ih with h2 | h2
      · left; exact h2
      · right; exact List.mem_cons_of_mem _ h2

theorem processRow_valid (alo ahi i blo bhi : Nat) (prev : List (Nat × Nat))
    (js : List Nat) (acc : List (Nat × Nat)) (best : Blk)
    (hprev : ∀ e ∈ prev, blo ≤ e.1 ∧ e.2 + alo ≤ i ∧ e.2 + blo ≤ e.1 + 1)
    (hacc : ∀ e ∈ acc, blo ≤ e.1 ∧ e.2 + alo ≤ i + 1 ∧ e.2 + blo ≤ e.1 + 1)
    (hbest : BlkValid alo ahi blo bhi best)
    (hia : alo ≤ i) (hih : i < ahi) :
    (∀ e ∈ (processRow i blo bhi prev js acc best).1,
        blo ≤ e.1 ∧ e.2 + alo ≤ i + 1 ∧ e.2 + blo ≤ e.1 + 1) ∧
    BlkValid alo ahi blo bhi (processRow i blo bhi prev js acc best).2 := by
  induction js generalizing acc best with
  | nil => exact ⟨hacc, hbest⟩
  | cons j js ih =>
    rw [processRow]
    by_cases hjlo : j < blo
    · rw [if_pos hjlo]
      exact ih acc best hacc hbest
    · rw [if_neg hjlo]
      by_cases hjhi : bhi ≤ j
      · rw [if_pos hjhi]
        exact ⟨hacc, hbest⟩
      · rw [if_neg hjhi]
        push_neg at hjlo hjhi
        have hk : ((if j = 0 then 0 else lookupD prev (j - 1)) + 1) + alo ≤ i + 1 ∧
            ((if j = 0 then 0 else lookupD prev (j - 1)) + 1) + blo ≤ j + 1 := by
          by_cases hj0 : j = 0
          · subst hj0
            have hz : (if (0 : Nat) = 0 then 0 else lookupD prev (0 - 1)) = 0 := if_pos rfl
            rw [hz]
            omega
          · rw [if_neg hj0]
            rcases lookupD_mem prev (j - 1) with h | h
            · rw [h]; omega
            · have := hprev _ h
              simp only at this
              omega
        refine ih _ _ ?_ ?_
        · intro e he
          rcases List.mem_cons.mp he with he | he
          · subst he
            exact ⟨hjlo, hk.1, hk.2⟩
          · exact hacc e he
        · by_cases hlt : best.bs < (if j = 0 then 0 else lookupD prev (j - 1)) + 1
          · rw [if_pos hlt]
            refine ⟨?_, ?_, ?_, ?_⟩ <;> simp only <;> omega
          · rw [if_neg hlt]
            exact hbest

theorem flmRows_valid (a : List Char) (b2j : Char → List Nat) (alo ahi blo bhi : Nat) :
    ∀ (cnt i : Nat) (prev : List (Nat × Nat)) (best : Blk),
      alo ≤ i → i + cnt = ahi →
      (∀ e ∈ prev, blo ≤ e.1 ∧ e.2 + alo ≤ i ∧ e.2 + blo ≤ e.1 + 1) →
      BlkValid alo ahi blo bhi best →
      BlkValid alo ahi blo bhi (flmRows a b2j blo bhi i cnt prev best) := by
  intro cnt
  induction cnt with
  | zero => intro i prev best _ _ _ hbest; exact hbest
  | succ n ih =>
    intro i prev best hia hsum hprev hbest
    rw [flmRows]
    have hih : i < ahi := by omega
    have h := processRow_valid alo ahi i blo bhi prev (b2j (a.getD i ' ')) [] best hprev
      (by intro e he; cases he) hbest hia hih
    exact ih (i + 1) _ _ (by omega) (by omega)
      (fun e he => by have := h.1 e he; omega) h.2

theorem extLeft_valid (a b : List Char) (alo blo : Nat) (ahi bhi : Nat) :
    ∀ (fuel : Nat) (best : Blk), BlkValid alo ahi blo bhi best →
      BlkValid alo ahi blo bhi (extLeft a b alo blo fuel best) := by
  intro fuel
  induction fuel with
  | zero => intro best h; exact h
  | succ n ih =>
    intro best h
    rw [extLeft]
    by_cases hc : alo < best.bi ∧ blo < best.bj ∧
        a.getD (best.bi - 1) ' ' = b.getD (best.bj - 1) ' '
    · rw [if_pos hc]
      refine ih _ ?_
      obtain ⟨h1, h2, h3, h4⟩ := h
      refine ⟨?_, ?_, ?_, ?_⟩ <;> simp only <;> omega
    · rw [if_neg hc]; exact h

theorem extRight_valid (a b : List Char) (ahi bhi : Nat) (alo blo : Nat) :
    ∀ (fuel : Nat) (best : Blk), BlkValid alo ahi blo bhi best →
      BlkValid alo ahi blo bhi (extRight a b ahi bhi fuel best) := by
  intro fuel
  induction fuel with
  | zero => intro best h; exact h
  | succ n ih =>
    intro best h
    rw [extRight]
    by_cases hc : best.bi + best.bs < ahi ∧ best.bj + best.bs < bhi ∧
        a.getD (best.bi + best.bs) ' ' = b.getD (best.bj + best.bs) ' '
    · rw [if_pos hc]
      refine ih _ ?_
      obtain ⟨h1, h2, h3, h4⟩ := h
      refine ⟨?_, ?_, ?_, ?_⟩ <;> simp only <;> omega
    · rw [if_neg hc]; exact h

theorem flm_valid (a b : List Char) (b2j : Char → List Nat) (alo ahi blo bhi : Nat)
    (h1 : alo ≤ ahi) (h2 : blo ≤ bhi) :
    BlkValid alo ahi blo bhi (flm a b b2j alo ahi blo bhi) := by
  rw [flm]
  refine extRight_valid a b ahi bhi alo blo _ _ (extLeft_valid a b alo blo ahi bhi _ _ ?_)
  exact flmRows_valid a b2j alo ahi blo bhi (ahi - alo) alo [] ⟨alo, blo, 0⟩
    (le_refl alo) (by omega) (by intro e he; cases he) ⟨le_refl alo, by simp; omega, le_refl blo, by simp; omega⟩

theorem msum_le (a b : List Char) (b2j : Char → List Nat) :
    ∀ (fuel alo ahi blo bhi : Nat), alo ≤ ahi → blo ≤ bhi →
      msum a b b2j fuel alo ahi blo bhi + alo ≤ ahi ∧
      msum a b b2j fuel alo ahi blo bhi + blo ≤ bhi := by
  intro fuel
  induction fuel with
  | zero => intro alo ahi blo bhi h1 h2; rw [msum]; omega
  | succ n ih =>
    intro alo ahi blo bhi h1 h2
    rw [msum]
    obtain ⟨v1, v2, v3, v4⟩ := flm_valid a b b2j alo ahi blo bhi h1 h2
    set m := flm a b b2j alo ahi blo bhi
    by_cases hz : m.bs = 0
    · rw [if_pos hz]; omega
    · rw [if_neg hz]
      have hL : (if alo < m.bi ∧ blo < m.bj then msum a b b2j n alo m.bi blo m.bj else 0)
          + alo ≤ m.bi ∧
          (if alo < m.bi ∧ blo < m.bj then msum a b b2j n alo m.bi blo m.bj else 0)
          + blo ≤ m.bj := by
        by_cases hc : alo < m.bi ∧ blo < m.bj
        · rw [if_pos hc]
          exact ih alo m.bi blo m.bj (le_of_lt hc.1) (le_of_lt hc.2)
        · rw [if_neg hc]
          push_neg at hc
          constructor
          · omega
          · by_cases hca : alo < m.bi
            · omega
            · omega
      have hR : (if m.bi + m.bs < ahi ∧ m.bj + m.bs < bhi then
            msum a b b2j n (m.bi + m.bs) ahi (m.bj + m.bs) bhi else 0)
          + (m.bi + m.bs) ≤ ahi ∧
          (if m.bi + m.bs < ahi ∧ m.bj + m.bs < bhi then
            msum a b b2j n (m.bi + m.bs) ahi (m.bj + m.bs) bhi else 0)
          + (m.bj + m.bs) ≤ bhi := by
        by_cases hc : m.bi + m.bs < ahi ∧ m.bj + m.bs < bhi
        · rw [if_pos hc]
          exact ih _ ahi _ bhi (le_of_lt hc.1) (le_of_lt hc.2)
        · rw [if_neg hc]
          push_neg at hc
          by_cases hca : m.bi + m.bs < ahi
          · omega
          · omega
      omega

theorem totalMatches_bound (a b : List Char) :
    totalMatches a b ≤ a.length ∧ totalMatches a b ≤ b.length := by
  have := msum_le a b (b2jOf b) (a.length + b.length) 0 a.length 0 b.length
    (Nat.zero_le _) (Nat.zero_le _)
  rw [totalMatches]
  omega

theorem ratioQ_nonneg (a b : List Char) : 0 ≤ ratioQ a b := by
  rw [ratioQ]
  by_cases h : a.length + b.length = 0
  · rw [if_pos h]; norm_num
  · rw [if_neg h, mkRat_eq_divQ]
    positivity

theorem ratioQ_le_one (a b : List Char) : ratioQ a b ≤ 1 := by
  rw [ratioQ]
  by_cases h : a.length + b.length = 0
  · rw [if_pos h]
  · rw [if_neg h, mkRat_eq_divQ]
    rw [div_le_one (by positivity)]
    have hb := totalMatches_bound a b
    push_cast
    have : (2 * totalMatches a b : ℤ) ≤ (a.length + b.length : ℤ) := by
      omega
    exact_mod_cast this

/-! ## The diagonal analysis of `find_longest_match` on identical sequences

For `b = a`, every strict improvement found by the inner loop happens at a
diagonal key, so the best block is always diagonal and the extension loops
then grow it to the whole sequence.  `cs a i j` is the exact value the inner
loop's `j2len` table holds at key `j` after row `i` (the length of the common
suffix of `a[..i]` and `a[..j]` whose characters are present in `b2j`). -/

theorem cs_zero_eq (a : List Char) (j : Nat) :
    cs a 0 j = if csCond a 0 j then 1 else 0 := by
  rw [cs]

theorem cs_succ_zero_eq (a : List Char) (i : Nat) :
    cs a (i + 1) 0 = if csCond a (i + 1) 0 then 1 else 0 := by
  rw [cs]

theorem cs_succ_succ_eq (a : List Char) (i j : Nat) :
    cs a (i + 1) (j + 1) = if csCond a (i + 1) (j + 1) then cs a i j + 1 else 0 := by
  rw [cs]

theorem csCond_diag_left {a : List Char} {i j : Nat} (h : csCond a i j) :
    csCond a i i :=
  ⟨rfl, h.2.1, h.2.2.1, h.2.2.1⟩

theorem csCond_diag_right {a : List Char} {i j : Nat} (h : csCond a i j) :
    csCond a j j := by
  obtain ⟨he, hp, hi, hj⟩ := h
  exact ⟨rfl, by rw [he]; exact hp, hj, hj⟩

theorem cs_diag_pos {a : List Char} {j : Nat} (h : csCond a j j) :
    1 ≤ cs a j j := by
  match j with
  | 0 => rw [cs_zero_eq, if_pos h]
  | j' + 1 => rw [cs_succ_succ_eq, if_pos h]; omega

theorem cs_le_left (a : List Char) : ∀ i j, cs a i j ≤ cs a i i := by
  intro i
  induction i with
  | zero =>
    intro j
    rw [cs_zero_eq]
    by_cases h : csCond a 0 j
    · rw [if_pos h]
      exact cs_diag_pos (csCond_diag_left h)
    · rw [if_neg h]; exact Nat.zero_le _
  | succ i ih =>
    intro j
    match j with
    | 0 =>
      rw [cs_succ_zero_eq]
      by_cases h : csCond a (i + 1) 0
      · rw [if_pos h]
        exact cs_diag_pos (csCond_diag_left h)
      · rw [if_neg h]; exact Nat.zero_le _
    | j' + 1 =>
      rw [cs_succ_succ_eq]
      by_cases h : csCond a (i + 1) (j' + 1)
      · rw [if_pos h]
        have hd : csCond a (i + 1) (i + 1) := csCond_diag_left h
        rw [cs_succ_succ_eq a i i, if_pos hd]
        exact Nat.succ_le_succ (ih j')
      · rw [if_neg h]; exact Nat.zero_le _

theorem cs_le_right (a : List Char) : ∀ i j, cs a i j ≤ cs a j j := by
  intro i
  induction i with
  | zero =>
    intro j
    rw [cs_zero_eq]
    by_cases h : csCond a 0 j
    · rw [if_pos h]
      exact cs_diag_pos (csCond_diag_right h)
    · rw [if_neg h]; exact Nat.zero_le _
  | succ i ih =>
    intro j
    match j with
    | 0 =>
      rw [cs_succ_zero_eq]
      by_cases h : csCond a (i + 1) 0
      · rw [if_pos h]
        exact cs_diag_pos (csCond_diag_right h)
      · rw [if_neg h]; exact Nat.zero_le _
    | j' + 1 =>
      rw [cs_succ_succ_eq]
      by_cases h : csCond a (i + 1) (j' + 1)
      · rw [if_pos h]
        have hd : csCond a (j' + 1) (j' + 1) := csCond_diag_right h
        rw [cs_succ_succ_eq a j' j', if_pos hd]
        exact Nat.succ_le_succ (ih j')
      · rw [if_neg h]; exact Nat.zero_le _

theorem cs_le_succ (a : List Char) : ∀ i j, cs a i j ≤ i + 1 := by
  intro i
  induction i with
  | zero =>
    intro j
    rw [cs_zero_eq]
    by_cases h : csCond a 0 j
    · rw [if_pos h]
    · rw [if_neg h]; omega
  | succ i ih =>
    intro j
    match j with
    | 0 =>
      rw [cs_succ_zero_eq]
      by_cases h : csCond a (i + 1) 0
      · rw [if_pos h]; omega
      · rw [if_neg h]; omega
    | j' + 1 =>
      rw [cs_succ_succ_eq]
      by_cases h : csCond a (i + 1) (j' + 1)
      · rw [if_pos h]
        have := ih j'
        omega
      · rw [if_neg h]; omega

theorem cs_le_maxdiag (a : List Char) : ∀ i j, j < i → cs a j j ≤ maxdiag a i := by
  intro i
  induction i with
  | zero => intro j h; omega
  | succ i ih =>
    intro j h
    rw [maxdiag]
    by_cases hj : j < i
    · exact le_trans (ih j hj) (le_max_left _ _)
    · have : j = i := by omega
      subst this
      exact le_max_right _ _

theorem kOf_le (a : List Char) (i j : Nat) (prev : List (Nat × Nat))
    (hprev : PrevRel a i prev) (hcond : csCond a i j) :
    (if j = 0 then 0 else lookupD prev (j - 1)) + 1 ≤ cs a i j := by
  match j with
  | 0 =>
    rw [if_pos rfl]
    match i with
    | 0 => rw [cs_zero_eq, if_pos hcond]
    | i' + 1 => rw [cs_succ_zero_eq, if_pos hcond]
  | j' + 1 =>
    rw [if_neg (Nat.succ_ne_zero j')]
    match i with
    | 0 =>
      rw [hprev]
      rw [cs_zero_eq, if_pos hcond]
      simp [lookupD]
    | i' + 1 =>
      rw [cs_succ_succ_eq, if_pos hcond]
      rcases lookupD_mem prev (j' + 1 - 1) with h | h
      · rw [h]; omega
      · have := hprev _ h
        simp only [Nat.add_sub_cancel] at h this ⊢
        omega

theorem kOf_diag (a : List Char) (i : Nat) (prev : List (Nat × Nat))
    (hpd : PrevDiag a i prev) (hcond : csCond a i i) :
    (if i = 0 then 0 else lookupD prev (i - 1)) + 1 = cs a i i := by
  match i with
  | 0 =>
    rw [if_pos rfl, cs_zero_eq, if_pos hcond]
  | i' + 1 =>
    rw [if_neg (Nat.succ_ne_zero i'), cs_succ_succ_eq, if_pos hcond]
    simp only [Nat.add_sub_cancel]
    rw [hpd]

theorem processRow_append (i blo bhi : Nat) (prev : List (Nat × Nat))
    (js1 js2 : List Nat) (acc : List (Nat × Nat)) (best : Blk)
    (h : ∀ j ∈ js1, j < bhi) :
    processRow i blo bhi prev (js1 ++ js2) acc best =
      processRow i blo bhi prev js2 (processRow i blo bhi prev js1 acc best).1
        (processRow i blo bhi prev js1 acc best).2 := by
  induction js1 generalizing acc best with
  | nil => rfl
  | cons j js ih =>
    have hj : j < bhi := h j (by simp)
    rw [List.cons_append, processRow, processRow]
    by_cases hlo : j < blo
    · rw [if_pos hlo, if_pos hlo]
      exact ih acc best (fun x hx => h x (by simp [hx]))
    · rw [if_neg hlo, if_neg hlo, if_neg (by omega : ¬ bhi ≤ j),
        if_neg (by omega : ¬ bhi ≤ j)]
      exact ih _ _ (fun x hx => h x (by simp [hx]))

theorem processRow_noUpdate (a : List Char) (i : Nat) (prev : List (Nat × Nat))
    (hprev : PrevRel a i prev) :
    ∀ (seg : List Nat) (acc : List (Nat × Nat)) (best : Blk),
      (∀ j ∈ seg, csCond a i j) →
      (∀ j ∈ seg, cs a i j ≤ best.bs) →
      (processRow i 0 a.length prev seg acc best).2 = best ∧
      (∀ e ∈ (processRow i 0 a.length prev seg acc best).1,
        e ∈ acc ∨ e.2 ≤ cs a i e.1) ∧
      (∀ x, x ∉ seg →
        lookupD (processRow i 0 a.length prev seg acc best).1 x = lookupD acc x) := by
  intro seg
  induction seg with
  | nil => exact fun acc best _ _ => ⟨rfl, fun e he => Or.inl he, fun x _ => rfl⟩
  | cons j seg ih =>
    intro acc best hcond hbound
    have hcj := hcond j (by simp)
    have hjn : j < a.length := hcj.2.2.2
    rw [processRow, if_neg (by omega : ¬ j < 0), if_neg (by omega : ¬ a.length ≤ j)]
    have hk : (if j = 0 then 0 else lookupD prev (j - 1)) + 1 ≤ cs a i j :=
      kOf_le a i j prev hprev hcj
    have hnb : ¬ best.bs < (if j = 0 then 0 else lookupD prev (j - 1)) + 1 := by
      have := hbound j (by simp)
      omega
    rw [if_neg hnb]
    obtain ⟨h1, h2, h3⟩ := ih ((j, (if j = 0 then 0 else lookupD prev (j - 1)) + 1) :: acc) best
      (fun x hx => hcond x (by simp [hx])) (fun x hx => hbound x (by simp [hx]))
    refine ⟨h1, ?_, ?_⟩
    · intro e he
      rcases h2 e he with h | h
      · rcases List.mem_cons.mp h with h | h
        · subst h
          exact Or.inr hk
        · exact Or.inl h
      · exact Or.inr h
    · intro x hx
      have hxj : x ≠ j := by intro hh; exact hx (by simp [hh])
      have hxs : x ∉ seg := fun hh => hx (by simp [hh])
      rw [h3 x hxs, lookupD, if_neg (fun hh => hxj hh.symm)]

theorem range_split : ∀ (n i : Nat), i < n →
    ∃ suf, List.range n = List.range i ++ i :: suf ∧ ∀ j ∈ suf, i < j := by
  intro n
  induction n with
  | zero => intro i h; omega
  | succ m ih =>
    intro i h
    by_cases hi : i < m
    · obtain ⟨suf, hs, hm⟩ := ih i hi
      refine ⟨suf ++ [m], ?_, ?_⟩
      · rw [List.range_succ, hs]
        simp
      · intro j hj
        rcases List.mem_append.mp hj with hj | hj
        · exact hm j hj
        · simp at hj
          omega
    · have : i = m := by omega
      subst this
      exact ⟨[], by rw [List.range_succ], by simp⟩

theorem positionsOf_split (a : List Char) (i : Nat) (hi : i < a.length)
    (hpop : popularCh a (a.getD i ' ') = false) :
    ∃ A B, b2jOf a (a.getD i ' ') = A ++ i :: B ∧
      (∀ j ∈ A, j < i ∧ csCond a i j) ∧ (∀ j ∈ B, i < j ∧ csCond a i j) := by
  rw [b2jOf, if_neg (by rw [hpop]; exact Bool.false_ne_true)]
  obtain ⟨suf, hs, hm⟩ := range_split a.length i hi
  have hsubn : ∀ j ∈ suf, j < a.length := by
    intro j hj
    have : j ∈ List.range a.length := by rw [hs]; simp [hj]
    simpa using this
  refine ⟨(List.range i).filter (fun j => a.getD j ' ' = a.getD i ' '),
    suf.filter (fun j => a.getD j ' ' = a.getD i ' '), ?_, ?_, ?_⟩
  · rw [positionsOf, hs, List.filter_append, List.filter_cons]
    simp
  · intro j hj
    have h1 : j ∈ List.range i := List.mem_of_mem_filter hj
    have h2 : decide (a.getD j ' ' = a.getD i ' ') = true := (List.mem_filter.mp hj).2
    have h2' := of_decide_eq_true h2
    have h1' : j < i := List.mem_range.mp h1
    exact ⟨h1', ⟨h2', hpop, hi, by omega⟩⟩
  · intro j hj
    have h1 : j ∈ suf := List.mem_of_mem_filter hj
    have h2' := of_decide_eq_true ((List.mem_filter.mp hj).2)
    exact ⟨hm j h1, ⟨h2', hpop, hi, hsubn j h1⟩⟩

theorem cs_diag_zero_of_pop (a : List Char) (i : Nat)
    (hpop : popularCh a (a.getD i ' ') = true) : cs a i i = 0 := by
  have hc : ¬ csCond a i i := by
    intro h
    rw [h.2.1] at hpop
    cases hpop
  match i with
  | 0 => rw [cs_zero_eq, if_neg hc]
  | i' + 1 => rw [cs_succ_succ_eq, if_neg hc]

theorem row_step (a : List Char) (i : Nat) (hi : i < a.length)
    (prev : List (Nat × Nat)) (best : Blk)
    (hprev : PrevRel a i prev) (hpd : PrevDiag a i prev)
    (hdiag : best.bi = best.bj) (hval : best.bi + best.bs ≤ i)
    (hbs : best.bs = maxdiag a i) :
    PrevRel a (i + 1) (processRow i 0 a.length prev (b2jOf a (a.getD i ' ')) [] best).1 ∧
    PrevDiag a (i + 1) (processRow i 0 a.length prev (b2jOf a (a.getD i ' ')) [] best).1 ∧
    (processRow i 0 a.length prev (b2jOf a (a.getD i ' ')) [] best).2.bi =
      (processRow i 0 a.length prev (b2jOf a (a.getD i ' ')) [] best).2.bj ∧
    (processRow i 0 a.length prev (b2jOf a (a.getD i ' ')) [] best).2.bi +
      (processRow i 0 a.length prev (b2jOf a (a.getD i ' ')) [] best).2.bs ≤ i + 1 ∧
    (processRow i 0 a.length prev (b2jOf a (a.getD i ' ')) [] best).2.bs =
      maxdiag a (i + 1) := by
  by_cases hpop : popularCh a (a.getD i ' ') = true
  · have hb2j : b2jOf a (a.getD i ' ') = [] := by
      rw [b2jOf]
      rw [if_pos hpop]
    rw [hb2j]
    simp only [processRow]
    have hz := cs_diag_zero_of_pop a i hpop
    refine ⟨?_, ?_, hdiag, by omega, ?_⟩
    · intro e he; cases he
    · show lookupD [] i = cs a i i
      rw [hz]; rfl
    · show best.bs = maxdiag a (i + 1)
      rw [maxdiag, hz, hbs]
      omega
  · have hpop' : popularCh a (a.getD i ' ') = false := by
      cases h : popularCh a (a.getD i ' ')
      · rfl
      · exact absurd h hpop
    obtain ⟨A, B, hsplit, hA, hB⟩ := positionsOf_split a i hi hpop'
    have hcii : csCond a i i := ⟨rfl, hpop', hi, hi⟩
    rw [hsplit]
    rw [processRow_append i 0 a.length prev A (i :: B) [] best
      (fun j hj => (hA j hj).2.2.2.2)]
    obtain ⟨hA2, hA1, hA3⟩ := processRow_noUpdate a i prev hprev A [] best
      (fun j hj => (hA j hj).2)
      (fun j hj => by
        have h1 := cs_le_right a i j
        have h2 := cs_le_maxdiag a i j (hA j hj).1
        omega)
    set acc1 := (processRow i 0 a.length prev A [] best).1 with hacc1
    rw [hA2]
    have hlk1 : lookupD acc1 i = 0 := by
      rw [hA3 i (fun hh => by have := (hA i hh).1; omega)]
      rfl
    rw [processRow, if_neg (by omega : ¬ i < 0), if_neg (by omega : ¬ a.length ≤ i)]
    have hkd : (if i = 0 then 0 else lookupD prev (i - 1)) + 1 = cs a i i :=
      kOf_diag a i prev hpd hcii
    rw [hkd]
    have hbnd := cs_le_succ a i i
    have hstep : ∀ best2 : Blk,
        best2.bi = best2.bj → best2.bi + best2.bs ≤ i + 1 →
        best2.bs = maxdiag a (i + 1) →
        PrevRel a (i + 1) (processRow i 0 a.length prev B ((i, cs a i i) :: acc1) best2).1 ∧
        PrevDiag a (i + 1) (processRow i 0 a.length prev B ((i, cs a i i) :: acc1) best2).1 ∧
        (processRow i 0 a.length prev B ((i, cs a i i) :: acc1) best2).2.bi =
          (processRow i 0 a.length prev B ((i, cs a i i) :: acc1) best2).2.bj ∧
        (processRow i 0 a.length prev B ((i, cs a i i) :: acc1) best2).2.bi +
          (processRow i 0 a.length prev B ((i, cs a i i) :: acc1) best2).2.bs ≤ i + 1 ∧
        (processRow i 0 a.length prev B ((i, cs a i i) :: acc1) best2).2.bs =
          maxdiag a (i + 1) := by
      intro best2 hd2 hv2 hb2
      obtain ⟨hB2, hB1, hB3⟩ := processRow_noUpdate a i prev hprev B ((i, cs a i i) :: acc1)
        best2 (fun j hj => (hB j hj).2)
        (fun j hj => by
          have h1 := cs_le_left a i j
          rw [hb2, maxdiag]
          omega)
      refine ⟨?_, ?_, ?_, ?_, ?_⟩
      · intro e he
        rcases hB1 e he with h | h
        · rcases List.mem_cons.mp h with h | h
          · subst h
            exact le_refl _
          · rcases hA1 e h with h' | h'
            · cases h'
            · exact h'
        · exact h
      · show lookupD _ i = cs a i i
        rw [hB3 i (fun hh => by have := (hB i hh).1; omega)]
        rw [lookupD, if_pos rfl]
      · rw [hB2]; exact hd2
      · rw [hB2]; exact hv2
      · rw [hB2]; exact hb2
    by_cases hup : best.bs < cs a i i
    · rw [if_pos hup]
      refine hstep _ rfl (by simp only; omega) ?_
      simp only
      rw [maxdiag, hbs] at *
      omega
    · rw [if_neg hup]
      refine hstep best hdiag (by omega) ?_
      rw [maxdiag, hbs] at *
      omega

theorem flmRows_diag (a : List Char) :
    ∀ (cnt i : Nat) (prev : List (Nat × Nat)) (best : Blk),
      i + cnt = a.length →
      PrevRel a i prev → PrevDiag a i prev →
      best.bi = best.bj → best.bi + best.bs ≤ i → best.bs = maxdiag a i →
      (flmRows a (b2jOf a) 0 a.length i cnt prev best).bi =
        (flmRows a (b2jOf a) 0 a.length i cnt prev best).bj ∧
      (flmRows a (b2jOf a) 0 a.length i cnt prev best).bi +
        (flmRows a (b2jOf a) 0 a.length i cnt prev best).bs ≤ a.length := by
  intro cnt
  induction cnt with
  | zero =>
    intro i prev best hsum _ _ hd hv _
    rw [flmRows]
    exact ⟨hd, by omega⟩
  | succ n ih =>
    intro i prev best hsum hprev hpd hd hv hbs
    rw [flmRows]
    have hi : i < a.length := by omega
    obtain ⟨p1, p2, p3, p4, p5⟩ := row_step a i hi prev best hprev hpd hd hv hbs
    exact ih (i + 1) _ _ (by omega) p1 p2 p3 p4 p5

theorem extLeft_diag (a : List Char) :
    ∀ (fuel d k : Nat), d ≤ fuel →
      extLeft a a 0 0 fuel (Blk.mk d d k) = Blk.mk 0 0 (k + d) := by
  intro fuel
  induction fuel with
  | zero =>
    intro d k h
    have hd : d = 0 := by omega
    subst hd
    rw [extLeft]
    simp
  | succ n ih =>
    intro d k h
    rw [extLeft]
    by_cases hd : 0 < d
    · rw [if_pos ⟨hd, hd, rfl⟩]
      have step : extLeft a a 0 0 n
          (Blk.mk ((Blk.mk d d k).bi - 1) ((Blk.mk d d k).bj - 1) ((Blk.mk d d k).bs + 1)) =
          extLeft a a 0 0 n (Blk.mk (d - 1) (d - 1) (k + 1)) := rfl
      rw [step, ih (d - 1) (k + 1) (by omega)]
      have heq : k + 1 + (d - 1) = k + d := by omega
      rw [heq]
    · have hd0 : d = 0 := by omega
      subst hd0
      rw [if_neg (by simp)]
      simp

theorem extRight_diag (a : List Char) :
    ∀ (fuel s : Nat), s ≤ a.length → a.length - s ≤ fuel →
      extRight a a a.length a.length fuel (Blk.mk 0 0 s) = Blk.mk 0 0 a.length := by
  intro fuel
  induction fuel with
  | zero =>
    intro s h1 h2
    have : s = a.length := by omega
    subst this
    rw [extRight]
  | succ n ih =>
    intro s h1 h2
    rw [extRight]
    by_cases hs : s < a.length
    · have hc : (Blk.mk 0 0 s).bi + (Blk.mk 0 0 s).bs < a.length ∧
          (Blk.mk 0 0 s).bj + (Blk.mk 0 0 s).bs < a.length ∧
          a.getD ((Blk.mk 0 0 s).bi + (Blk.mk 0 0 s).bs) ' ' =
            a.getD ((Blk.mk 0 0 s).bj + (Blk.mk 0 0 s).bs) ' ' := by
        refine ⟨by simp only; omega, by simp only; omega, rfl⟩
      rw [if_pos hc]
      exact ih (s + 1) (by omega) (by omega)
    · have hsl : s = a.length := by omega
      subst hsl
      rw [if_neg (by simp)]

theorem ext_combo (a : List Char) (best : Blk)
    (hd : best.bi = best.bj) (hv : best.bi + best.bs ≤ a.length) :
    extRight a a a.length a.length
      (a.length - ((extLeft a a 0 0 best.bi best).bi + (extLeft a a 0 0 best.bi best).bs))
      (extLeft a a 0 0 best.bi best) = Blk.mk 0 0 a.length := by
  obtain ⟨bi, bj, bs⟩ := best
  simp only at hd hv
  subst hd
  rw [extLeft_diag a bi bi bs (le_refl bi)]
  exact extRight_diag a _ (bs + bi) (by omega)
    (by show a.length - (bs + bi) ≤ a.length - (0 + (bs + bi)); omega)

theorem flm_diag (a : List Char) :
    flm a a (b2jOf a) 0 a.length 0 a.length = Blk.mk 0 0 a.length := by
  have h0 := flmRows_diag a (a.length - 0) 0 [] (Blk.mk 0 0 0) (by omega) rfl trivial rfl
    (by simp) rfl
  rw [flm]
  exact ext_combo a _ h0.1 h0.2

theorem msum_diag_succ (a : List Char) (f : Nat) :
    msum a a (b2jOf a) (f + 1) 0 a.length 0 a.length = a.length := by
  rw [msum]
  rw [flm_diag]
  simp only
  by_cases hn : a.length = 0
  · rw [if_pos hn]
    omega
  · rw [if_neg hn, if_neg (by omega), if_neg (by omega)]
    omega

theorem totalMatches_self (a : List Char) : totalMatches a a = a.length := by
  rw [totalMatches]
  by_cases hn : a.length = 0
  · rw [hn]
    exact (by rw [msum] : msum a a (b2jOf a) 0 0 0 0 0 = 0)
  · obtain ⟨f, hf⟩ : ∃ f, a.length + a.length = f + 1 := ⟨a.length + a.length - 1, by omega⟩
    rw [hf]
    exact msum_diag_succ a f

theorem ratioQ_self (a : List Char) (h : a ≠ []) : ratioQ a a = 1 := by
  have hl : a.length ≠ 0 := fun hh => h (List.length_eq_zero.mp hh)
  rw [ratioQ, if_neg (by omega), totalMatches_self, mkRat_eq_divQ]
  rw [div_eq_one_iff_eq (by exact_mod_cast by omega)]
  push_cast
  ring

/-! ## Whitespace stripping, and the similarity-scorer contract -/

theorem dropWhile_idem (p : Char → Bool) (s : List Char) :
    (s.dropWhile p).dropWhile p = s.dropWhile p := by
  induction s with
  | nil => rfl
  | cons c t ih =>
    by_cases h : p c
    · simp [List.dropWhile_cons, h, ih]
    · simp [List.dropWhile_cons, h]

theorem dropWhile_append_singleton (p : Char → Bool) (c : Char) (h : p c = false) :
    ∀ l : List Char, (l ++ [c]).dropWhile p = l.dropWhile p ++ [c] := by
  intro l
  induction l with
  | nil => simp [List.dropWhile_cons, h]
  | cons d t ih =>
    by_cases hd : p d
    · simp [List.dropWhile_cons, hd, ih]
    · simp [List.dropWhile_cons, hd]

theorem dropWhile_head_false (p : Char → Bool) :
    ∀ (s : List Char) (c : Char) (t : List Char),
      s.dropWhile p = c :: t → p c = false := by
  intro s
  induction s with
  | nil => intro c t h; cases h
  | cons d s' ih =>
    intro c t h
    by_cases hd : p d
    · rw [List.dropWhile_cons, if_pos hd] at h
      exact ih c t h
    · rw [List.dropWhile_cons, if_neg hd] at h
      cases h
      cases hpd : p d
      · rfl
      · exact absurd hpd hd

theorem stripWs_idem (s : List Char) : stripWs (stripWs s) = stripWs s := by
  cases h1 : s.dropWhile isWs with
  | nil =>
    have hs : stripWs s = [] := by rw [stripWs, h1]; rfl
    rw [hs]; rfl
  | cons c u =>
    have hc : isWs c = false := dropWhile_head_false isWs s c u h1
    have hs : stripWs s = c :: (u.reverse.dropWhile isWs).reverse := by
      rw [stripWs, h1, List.reverse_cons, dropWhile_append_singleton isWs c hc]
      simp
    rw [hs, stripWs, List.dropWhile_cons, if_neg (by simp [hc]), List.reverse_cons,
      List.reverse_reverse, dropWhile_append_singleton isWs c hc, dropWhile_idem]
    simp

theorem collapseWs_eq_nil_iff (s : List Char) : collapseWs s = [] ↔ s = [] := by
  rw [collapseWs]
  cases s with
  | nil => simp [collapseWsAux]
  | cons c t =>
    rw [collapseWsAux]
    by_cases h : isWs c
    · simp [h]
    · simp [h]

theorem normChars_eq_nil_iff (s : List Char) : normChars s = [] ↔ stripWs s = [] := by
  rw [normChars, collapseWs_eq_nil_iff, lowerStr]
  simp

theorem normChars_stripWs (s : List Char) : normChars (stripWs s) = normChars s := by
  rw [normChars, normChars, stripWs_idem]

theorem mk_data (l : List Char) : (String.mk l).data = l := rfl

/-- With the embedding backend disabled, `semantic_similarity` coincides with
`lexical_similarity` on every pair of inputs. -/
theorem semantic_eq_lexical (x y : String) :
    semanticSimilarity x y = lexicalSimilarity x y := by
  rw [semanticSimilarity]
  conv_rhs => rw [lexicalSimilarity]
  by_cases hx : stripWs x.data = [] <;> by_cases hy : stripWs y.data = []
  · rw [if_pos (by simp [hx, hy])]
    unfold lexCore
    rw [if_pos (by simp [List.isEmpty_iff, normChars_eq_nil_iff, hx, hy])]
  · rw [if_neg (by simp [List.isEmpty_iff, hx, hy]), if_pos (by simp [List.isEmpty_iff, hx])]
    unfold lexCore
    rw [if_neg (by simp [List.isEmpty_iff, normChars_eq_nil_iff, hx, hy]),
      if_pos (by simp [List.isEmpty_iff, normChars_eq_nil_iff, hx])]
  · rw [if_neg (by simp [List.isEmpty_iff, hx, hy]), if_pos (by simp [List.isEmpty_iff, hy])]
    unfold lexCore
    rw [if_neg (by simp [List.isEmpty_iff, normChars_eq_nil_iff, hx, hy]),
      if_pos (by simp [List.isEmpty_iff, normChars_eq_nil_iff, hy])]
  · rw [if_neg (by simp [List.isEmpty_iff, hx, hy]),
      if_neg (by simp [List.isEmpty_iff, hx, hy]), lexicalSimilarity, mk_data, mk_data,
      normChars_stripWs, normChars_stripWs]

theorem jaccardSim_self (a : List Char) : jaccardSim a a = 1 := by
  rw [jaccardSim]
  by_cases h : ((tokensOf a).dedup).isEmpty
  · rw [if_pos (by simp [h])]
  · rw [if_neg (by simp [h]), if_neg (by simp [h])]
    have h1 : (tokensOf a).dedup.filter (fun t => decide (t ∈ (tokensOf a).dedup)) =
        (tokensOf a).dedup :=
      List.filter_eq_self.mpr (fun x hx => decide_eq_true hx)
    have h2 : (tokensOf a).dedup.filter (fun t => decide (t ∉ (tokensOf a).dedup)) = [] := by
      rw [List.filter_eq_nil_iff]
      intro x hx
      simp [hx]
    rw [h1, h2, List.append_nil, mkRat_eq_divQ]
    have hne : ((tokensOf a).dedup).length ≠ 0 := by
      simp only [List.isEmpty_iff] at h
      simp [h]
    rw [div_eq_one_iff_eq (by exact_mod_cast hne)]
    norm_cast

theorem jaccardSim_nonneg (a b : List Char) : 0 ≤ jaccardSim a b := by
  rw [jaccardSim]
  by_cases h1 : ((tokensOf a).dedup).isEmpty && ((tokensOf b).dedup).isEmpty
  · rw [if_pos h1]; norm_num
  · rw [if_neg (by simp_all)]
    by_cases h2 : ((tokensOf a).dedup).isEmpty || ((tokensOf b).dedup).isEmpty
    · rw [if_pos h2]
    · rw [if_neg (by simp_all), mkRat_eq_divQ]
      positivity

theorem jaccardSim_le_one (a b : List Char) : jaccardSim a b ≤ 1 := by
  rw [jaccardSim]
  by_cases h1 : ((tokensOf a).dedup).isEmpty && ((tokensOf b).dedup).isEmpty
  · rw [if_pos h1]
  · rw [if_neg (by simp_all)]
    by_cases h2 : ((tokensOf a).dedup).isEmpty || ((tokensOf b).dedup).isEmpty
    · rw [if_pos h2]; norm_num
    · rw [if_neg (by simp_all), mkRat_eq_divQ]
      have hna : (tokensOf a).dedup ≠ [] := by
        simp only [Bool.or_eq_true, List.isEmpty_iff] at h2
        push_neg at h2
        exact h2.1
      have hlen : ((tokensOf a).dedup.filter
            (fun t => decide (t ∈ (tokensOf b).dedup))).length ≤
          ((tokensOf a).dedup ++ (tokensOf b).dedup.filter
            (fun t => decide (t ∉ (tokensOf a).dedup))).length := by
        rw [List.length_append]
        have := List.length_filter_le (fun t => decide (t ∈ (tokensOf b).dedup))
          (tokensOf a).dedup
        omega
      have hpos : (0 : ℚ) < (((tokensOf a).dedup ++ (tokensOf b).dedup.filter
          (fun t => decide (t ∉ (tokensOf a).dedup))).length : ℚ) := by
        have : (tokensOf a).dedup.length ≠ 0 := by simp [hna]
        rw [List.length_append]
        push_cast
        have h0 : 0 < (tokensOf a).dedup.length := by omega
        positivity
      rw [div_le_one hpos]
      exact_mod_cast hlen

theorem lexCore_self (a : List Char) : lexCore a a = 1 := by
  rw [lexCore]
  by_cases h : a.isEmpty
  · rw [if_pos (by simp [h])]
  · rw [if_neg (by simp [h]), if_neg (by simp [h]),
      ratioQ_self a (by simpa [List.isEmpty_iff] using h), jaccardSim_self,
      qMul_eq, qMul_eq, qAdd_eq, mkRat_eq_divQ, mkRat_eq_divQ]
    norm_num

theorem lexicalSimilarity_self (x : String) : lexicalSimilarity x x = 1 :=
  lexCore_self _

theorem semanticSimilarity_self (x : String) : semanticSimilarity x x = 1 := by
  rw [semantic_eq_lexical]
  exact lexicalSimilarity_self x

theorem lexCore_nonneg (a b : List Char) : 0 ≤ lexCore a b := by
  rw [lexCore]
  by_cases h1 : a.isEmpty && b.isEmpty
  · rw [if_pos h1]; norm_num
  · rw [if_neg (by simp_all)]
    by_cases h2 : a.isEmpty || b.isEmpty
    · rw [if_pos h2]
    · rw [if_neg (by simp_all), qAdd_eq, qMul_eq, qMul_eq, mkRat_eq_divQ, mkRat_eq_divQ]
      have r1 := ratioQ_nonneg a b
      have j1 := jaccardSim_nonneg a b
      have c1 : (0 : ℚ) ≤ ((55 : Int) : ℚ) / ((100 : Nat) : ℚ) := by norm_num
      have c2 : (0 : ℚ) ≤ ((45 : Int) : ℚ) / ((100 : Nat) : ℚ) := by norm_num
      positivity

theorem lexCore_le_one (a b : List Char) : lexCore a b ≤ 1 := by
  rw [lexCore]
  by_cases h1 : a.isEmpty && b.isEmpty
  · rw [if_pos h1]
  · rw [if_neg (by simp_all)]
    by_cases h2 : a.isEmpty || b.isEmpty
    · rw [if_pos h2]; norm_num
    · rw [if_neg (by simp_all), qAdd_eq, qMul_eq, qMul_eq, mkRat_eq_divQ, mkRat_eq_divQ]
      have r1 := ratioQ_nonneg a b
      have r2 := ratioQ_le_one a b
      have j1 := jaccardSim_nonneg a b
      have j2 := jaccardSim_le_one a b
      push_cast
      nlinarith

theorem lexicalSimilarity_nonneg (x y : String) : 0 ≤ lexicalSimilarity x y :=
  lexCore_nonneg _ _

theorem lexicalSimilarity_le_one (x y : String) : lexicalSimilarity x y ≤ 1 :=
  lexCore_le_one _ _

theorem semanticSimilarity_nonneg (x y : String) : 0 ≤ semanticSimilarity x y := by
  rw [semantic_eq_lexical]; exact lexicalSimilarity_nonneg x y

theorem semanticSimilarity_le_one (x y : String) : semanticSimilarity x y ≤ 1 := by
  rw [semantic_eq_lexical]; exact lexicalSimilarity_le_one x y

theorem pairScore_self (s : Sec) : pairScore s s = 1 := by
  rw [pairScore, lexicalSimilarity_self, semanticSimilarity_self, lexicalSimilarity_self,
    qMul_eq, qMul_eq, qMul_eq, qAdd_eq, qAdd_eq, mkRat_eq_divQ, mkRat_eq_divQ, mkRat_eq_divQ]
  norm_num

theorem pairScore_le_one (o ns : Sec) : pairScore o ns ≤ 1 := by
  rw [pairScore, qMul_eq, qMul_eq, qMul_eq, qAdd_eq, qAdd_eq, mkRat_eq_divQ, mkRat_eq_divQ,
    mkRat_eq_divQ]
  have h1 := lexicalSimilarity_le_one (headingOf o) (headingOf ns)
  have h2 := semanticSimilarity_le_one (comparisonText o) (comparisonText ns)
  have h3 := lexicalSimilarity_le_one (bodyOf o) (bodyOf ns)
  have h4 := lexicalSimilarity_nonneg (headingOf o) (headingOf ns)
  have h5 := semanticSimilarity_nonneg (comparisonText o) (comparisonText ns)
  have h6 := lexicalSimilarity_nonneg (bodyOf o) (bodyOf ns)
  push_cast
  nlinarith

theorem pairScore_nonneg (o ns : Sec) : 0 ≤ pairScore o ns := by
  rw [pairScore, qMul_eq, qMul_eq, qMul_eq, qAdd_eq, qAdd_eq, mkRat_eq_divQ, mkRat_eq_divQ,
    mkRat_eq_divQ]
  have h4 := lexicalSimilarity_nonneg (headingOf o) (headingOf ns)
  have h5 := semanticSimilarity_nonneg (comparisonText o) (comparisonText ns)
  have h6 := lexicalSimilarity_nonneg (bodyOf o) (bodyOf ns)
  push_cast
  nlinarith

/-! ## Claim C6 -/

/--
C6, counterexample.  The claim "`semantic_similarity` and `lexical_similarity`
… are symmetric … and return 0.0 when exactly one input is empty" is false on
the code: `lexical_similarity("", " ")` is 1.0 (a whitespace-only input
normalizes to empty and takes the both-empty branch although exactly one
input is the empty string), and `SequenceMatcher.ratio` is order-dependent,
so `lexical_similarity` is not symmetric: on the pair
`("QQcwdRRe", "RRfghQQw")` it returns 0.20625 one way and 0.1375 the other.
-/
theorem C6_counterexample :
    lexicalSimilarity "" " " = 1 ∧
    lexicalSimilarity "QQcwdRRe" "RRfghQQw" ≠ lexicalSimilarity "RRfghQQw" "QQcwdRRe" := by
  constructor
  · decide
  · decide

/--
C6, amended.  For all strings `a`, `b`: both `semantic_similarity` and
`lexical_similarity` return a value in `[0, 1]`; they return 1.0 when both
inputs normalize to empty (in particular when both are empty) and 0.0 when
exactly one input normalizes to empty; and with the embedding backend
disabled, `semantic_similarity` equals `lexical_similarity`.  (The symmetry
clause of the original claim is dropped, and "empty" must be read as
"normalizes to empty": both are refuted by `C6_counterexample`.)
-/
theorem C6_similarity_contract (a b : String) :
    (0 ≤ lexicalSimilarity a b ∧ lexicalSimilarity a b ≤ 1) ∧
    (0 ≤ semanticSimilarity a b ∧ semanticSimilarity a b ≤ 1) ∧
    semanticSimilarity a b = lexicalSimilarity a b ∧
    (normalizeText a = "" ∧ normalizeText b = "" → lexicalSimilarity a b = 1) ∧
    (normalizeText a = "" ∧ normalizeText b ≠ "" → lexicalSimilarity a b = 0) ∧
    (normalizeText a ≠ "" ∧ normalizeText b = "" → lexicalSimilarity a b = 0) := by
  have hmk : ∀ s : List Char, String.mk s = "" ↔ s = [] := by
    intro s
    constructor
    · intro h
      have := congrArg String.data h
      simpa using this
    · intro h; rw [h]
  refine ⟨⟨lexicalSimilarity_nonneg a b, lexicalSimilarity_le_one a b⟩,
    ⟨semanticSimilarity_nonneg a b, semanticSimilarity_le_one a b⟩,
    semantic_eq_lexical a b, ?_, ?_, ?_⟩
  · intro h
    obtain ⟨ha, hb⟩ := h
    simp only [normalizeText] at ha hb
    rw [hmk] at ha
    rw [hmk] at hb
    rw [lexicalSimilarity]
    unfold lexCore
    rw [if_pos (by simp [List.isEmpty_iff, ha, hb])]
  · intro h
    obtain ⟨ha, hb⟩ := h
    simp only [normalizeText, ne_eq] at ha hb
    rw [hmk] at ha
    rw [hmk] at hb
    rw [lexicalSimilarity]
    unfold lexCore
    rw [if_neg (by simp [List.isEmpty_iff, ha, hb]), if_pos (by simp [List.isEmpty_iff, ha])]
  · intro h
    obtain ⟨ha, hb⟩ := h
    simp only [normalizeText, ne_eq] at ha hb
    rw [hmk] at ha
    rw [hmk] at hb
    rw [lexicalSimilarity]
    unfold lexCore
    rw [if_neg (by simp [List.isEmpty_iff, ha, hb]), if_pos (by simp [List.isEmpty_iff, hb])]

/-- Witness for `C6_similarity_contract`: the hypotheses of its conditional
clauses discharged at concrete inputs. -/
theorem C6_similarity_contract_witness :
    lexicalSimilarity "" "" = 1 ∧ lexicalSimilarity "" "x" = 0 ∧
    semanticSimilarity "ab c" "d" = lexicalSimilarity "ab c" "d" := by
  refine ⟨(C6_similarity_contract "" "").2.2.2.1 ⟨by decide, by decide⟩,
    (C6_similarity_contract "" "x").2.2.2.2.1 ⟨by decide, by decide⟩,
    (C6_similarity_contract "ab c" "d").2.2.1⟩

/-! ## Claim C5 -/

theorem greedyGen_chain_inv (rec1 rec2 : ℚ → ℚ) (t1 t2 : ℚ)
    (l1 l2 : List (ℚ × String × String)) :
    ((greedyGen rec2 t2 l2 (greedyGen rec1 t1 l1 ⟨[], [], []⟩)).ms.map
        (fun m => m.1)).Nodup ∧
    ((greedyGen rec2 t2 l2 (greedyGen rec1 t1 l1 ⟨[], [], []⟩)).ms.map
        (fun m => m.2.1)).Nodup ∧
    (greedyGen rec2 t2 l2 (greedyGen rec1 t1 l1 ⟨[], [], []⟩)).mo =
      ((greedyGen rec2 t2 l2 (greedyGen rec1 t1 l1 ⟨[], [], []⟩)).ms.map
        (fun m => m.1)).reverse ∧
    (greedyGen rec2 t2 l2 (greedyGen rec1 t1 l1 ⟨[], [], []⟩)).mn =
      ((greedyGen rec2 t2 l2 (greedyGen rec1 t1 l1 ⟨[], [], []⟩)).ms.map
        (fun m => m.2.1)).reverse := by
  obtain ⟨f1, f2⟩ := greedyGen_fields rec1 t1 l1 ⟨[], [], []⟩ rfl rfl
  obtain ⟨n1, n2⟩ := greedyGen_nodup rec1 t1 l1 ⟨[], [], []⟩ rfl rfl (by simp) (by simp)
  obtain ⟨g1, g2⟩ := greedyGen_fields rec2 t2 l2 _ f1 f2
  obtain ⟨m1, m2⟩ := greedyGen_nodup rec2 t2 l2 _ f1 f2 n1 n2
  exact ⟨m1, m2, g1, g2⟩

/--
C5.  In the matching stage (full-signal greedy pass followed by the
heading-fallback pass), every old-section id and every new-section id occurs
in at most one accepted pair (the per-side projections of the match list have
no duplicates); the matched-old and matched-new sets are exactly the ids of
the accepted pairs; and no id that occurs in an accepted pair is also in the
list of ids processed as unmatched (the ids filtered out by membership in the
matched sets).
-/
theorem C5_matching_invariants (oldSecs newSecs : List (String × Sec)) (mt hf : ℚ) :
    ((matchStage oldSecs newSecs mt hf).ms.map (fun m => m.1)).Nodup ∧
    ((matchStage oldSecs newSecs mt hf).ms.map (fun m => m.2.1)).Nodup ∧
    (matchStage oldSecs newSecs mt hf).mo =
      ((matchStage oldSecs newSecs mt hf).ms.map (fun m => m.1)).reverse ∧
    (matchStage oldSecs newSecs mt hf).mn =
      ((matchStage oldSecs newSecs mt hf).ms.map (fun m => m.2.1)).reverse ∧
    (((matchStage oldSecs newSecs mt hf).ms.map (fun m => m.1)).all
      (fun o => !decide (o ∈ (oldSecs.map Prod.fst).filter
        (fun k => !decide (k ∈ (matchStage oldSecs newSecs mt hf).mo))))) = true ∧
    (((matchStage oldSecs newSecs mt hf).ms.map (fun m => m.2.1)).all
      (fun ni => !decide (ni ∈ (newSecs.map Prod.fst).filter
        (fun k => !decide (k ∈ (matchStage oldSecs newSecs mt hf).mn))))) = true := by
  have h := greedyGen_chain_inv (fun sc => sc) (fun hs => qMul hs (mkRat 92 100)) mt hf
    (stableSortBy scoreDesc ((oldSecs.map (fun o =>
      newSecs.map (fun ni => (pairScore o.2 ni.2, o.1, ni.1)))).flatten))
    (stableSortBy scoreDesc (((oldSecs.filter (fun o => !decide (o.1 ∈ (greedyGen (fun sc => sc) mt
        (stableSortBy scoreDesc ((oldSecs.map (fun o =>
          newSecs.map (fun ni => (pairScore o.2 ni.2, o.1, ni.1)))).flatten))
        ⟨[], [], []⟩).mo))).map (fun o =>
      (newSecs.filter (fun ni => !decide (ni.1 ∈ (greedyGen (fun sc => sc) mt
        (stableSortBy scoreDesc ((oldSecs.map (fun o =>
          newSecs.map (fun ni => (pairScore o.2 ni.2, o.1, ni.1)))).flatten))
        ⟨[], [], []⟩).mn))).map (fun ni =>
        (lexicalSimilarity (headingOf o.2) (headingOf ni.2), o.1, ni.1)))).flatten))
  obtain ⟨m1, m2, g1, g2⟩ := h
  have g1' : (matchStage oldSecs newSecs mt hf).mo =
      ((matchStage oldSecs newSecs mt hf).ms.map (fun m => m.1)).reverse := g1
  have g2' : (matchStage oldSecs newSecs mt hf).mn =
      ((matchStage oldSecs newSecs mt hf).ms.map (fun m => m.2.1)).reverse := g2
  refine ⟨m1, m2, g1', g2', ?_, ?_⟩
  · rw [List.all_eq_true]
    intro o ho
    have homo : o ∈ (matchStage oldSecs newSecs mt hf).mo := by
      rw [g1']
      simpa using (List.mem_reverse.mpr ho)
    simp only [Bool.not_eq_true', decide_eq_false_iff_not]
    intro hmem
    have := (List.mem_filter.mp hmem).2
    simp only [Bool.not_eq_true', decide_eq_false_iff_not] at this
    exact this homo
  · rw [List.all_eq_true]
    intro ni hni
    have hnmn : ni ∈ (matchStage oldSecs newSecs mt hf).mn := by
      rw [g2']
      simpa using (List.mem_reverse.mpr hni)
    simp only [Bool.not_eq_true', decide_eq_false_iff_not]
    intro hmem
    have := (List.mem_filter.mp hmem).2
    simp only [Bool.not_eq_true', decide_eq_false_iff_not] at this
    exact this hnmn

/-! ## Claim C4 -/

theorem nodup_subset_length {α : Type} [DecidableEq α] (A B : List α)
    (h1 : A.Nodup) (h2 : ∀ x ∈ A, x ∈ B) : A.length ≤ B.length := by
  calc A.length = A.toFinset.card := (List.toFinset_card_of_nodup h1).symm
    _ ≤ B.toFinset.card := Finset.card_le_card
        (fun x hx => List.mem_toFinset.mpr (h2 x (List.mem_toFinset.mp hx)))
    _ ≤ B.length := B.toFinset_card_le

theorem countP_true_mem_le (l : List Change) (K : List String)
    (h : (l.map Change.changeId).Nodup) :
    l.countP (fun c => decide (c.ctype = "TRUE_CHANGE") && decide (c.changeId ∈ K)) ≤
      K.length := by
  rw [List.countP_eq_length_filter]
  have hnd : ((l.filter (fun c => decide (c.ctype = "TRUE_CHANGE") &&
      decide (c.changeId ∈ K))).map Change.changeId).Nodup :=
    h.sublist ((l.filter_sublist).map Change.changeId)
  have hlen : ((l.filter (fun c => decide (c.ctype = "TRUE_CHANGE") &&
      decide (c.changeId ∈ K))).map Change.changeId).length ≤ K.length := by
    refine nodup_subset_length _ _ hnd ?_
    intro x hx
    obtain ⟨c, hc, hcx⟩ := List.mem_map.mp hx
    have := (List.mem_filter.mp hc).2
    simp only [Bool.and_eq_true, decide_eq_true_eq] at this
    rw [← hcx]
    exact this.2
  rw [List.length_map] at hlen
  exact hlen

/--
C4.  If the volume-cap pass runs on a change list with pairwise-distinct
change ids: when there are more than 50 TRUE_CHANGE records, afterwards at
most 35 (the default `max_true_changes`) records have type TRUE_CHANGE, and
every record of the output is either an untouched input record or a
downgraded record with type SEMANTIC_MINOR, subtype "Clarification without
rule change" and severity MINOR; when the TRUE_CHANGE count is 50 or fewer
the pass returns the list unchanged.
-/
theorem C4_volume_cap (l : List Change) (h : (l.map Change.changeId).Nodup) :
    (50 < (l.filter (fun c => c.ctype = "TRUE_CHANGE")).length →
      ((capOverDetection l 35).filter (fun c => c.ctype = "TRUE_CHANGE")).length ≤ 35) ∧
    ((l.filter (fun c => c.ctype = "TRUE_CHANGE")).length ≤ 50 →
      capOverDetection l 35 = l) ∧
    (∀ c ∈ capOverDetection l 35, c ∈ l ∨
      (c.ctype = "SEMANTIC_MINOR" ∧ c.subtype = "Clarification without rule change" ∧
        c.severity = "MINOR")) := by
  refine ⟨?_, ?_, ?_⟩
  · intro h50
    rw [capOverDetection]
    rw [if_neg (by omega)]
    rw [← List.countP_eq_length_filter, List.countP_map]
    have hcong : ∀ K : List String, l.countP ((fun c => decide (c.ctype = "TRUE_CHANGE")) ∘
        (fun ch => if ch.ctype ≠ "TRUE_CHANGE" then ch
          else if ch.changeId ∈ K then ch else downgradeCap ch)) =
        l.countP (fun c => decide (c.ctype = "TRUE_CHANGE") && decide (c.changeId ∈ K)) := by
      intro K
      refine List.countP_congr ?_
      intro c _
      by_cases hc : c.ctype = "TRUE_CHANGE"
      · by_cases hk : c.changeId ∈ K
        · simp [Function.comp, hc, hk]
        · simp [Function.comp, hc, hk, downgradeCap]
      · simp [Function.comp, hc]
    rw [hcong]
    refine le_trans (countP_true_mem_le l _ h) ?_
    rw [List.length_map]
    have := List.length_take_le 35 (stableSortBy
      (fun a b => decide (trueChangeConfidence b ≤ trueChangeConfidence a))
      (l.filter (fun c => decide (c.ctype = "TRUE_CHANGE"))))
    omega
  · intro h50
    rw [capOverDetection, if_pos h50]
  · intro c hc
    rw [capOverDetection] at hc
    by_cases h50 : (l.filter (fun c => decide (c.ctype = "TRUE_CHANGE"))).length ≤ 50
    · rw [if_pos h50] at hc
      exact Or.inl hc
    · rw [if_neg h50] at hc
      obtain ⟨c0, hc0, hgc⟩ := List.mem_map.mp hc
      by_cases hc1 : c0.ctype ≠ "TRUE_CHANGE"
      · rw [if_pos hc1] at hgc
        exact Or.inl (hgc ▸ hc0)
      · rw [if_neg hc1] at hgc
        by_cases hc2 : c0.changeId ∈ ((stableSortBy
            (fun a b => decide (trueChangeConfidence b ≤ trueChangeConfidence a))
            (l.filter (fun c => decide (c.ctype = "TRUE_CHANGE")))).take 35).map
            (fun c => c.changeId)
        · rw [if_pos hc2] at hgc
          exact Or.inl (hgc ▸ hc0)
        · rw [if_neg hc2] at hgc
          right
          rw [← hgc]
          exact ⟨rfl, rfl, rfl⟩

/-- Witness for `C4_volume_cap` at a concrete over-limit list. -/
theorem C4_volume_cap_witness :
    ((capOverDetection c4Demo 35).filter (fun c => c.ctype = "TRUE_CHANGE")).length ≤ 35 ∧
    capOverDetection (c4Demo.take 40) 35 = c4Demo.take 40 := by
  constructor
  · exact (C4_volume_cap c4Demo (by decide)).1 (by decide)
  · exact (C4_volume_cap (c4Demo.take 40) (by decide)).2.1 (by decide)

/-! ## Claim C9 -/

theorem lexLe_total (a b : List Char) : lexLe a b = true ∨ lexLe b a = true := by
  induction a generalizing b with
  | nil => left; rfl
  | cons c cs ih =>
    cases b with
    | nil => right; rfl
    | cons d ds =>
      rcases lt_trichotomy c d with h | h | h
      · left; simp [lexLe, h]
      · subst h
        rcases ih ds with h2 | h2
        · left; simp [lexLe, h2]
        · right; simp [lexLe, h2]
      · right; simp [lexLe, h]

theorem strLe_total (a b : String) : strLe a b = true ∨ strLe b a = true :=
  lexLe_total a.data b.data

theorem sevIdLe_total (c d : Change) : sevIdLe c d = true ∨ sevIdLe d c = true := by
  rcases Nat.lt_trichotomy (sevRank c.severity) (sevRank d.severity) with h | h | h
  · left; simp [sevIdLe, h]
  · rcases strLe_total c.changeId d.changeId with h2 | h2
    · left; simp [sevIdLe, h, h2]
    · right; simp [sevIdLe, h, h2]
  · right; simp [sevIdLe, h]

/--
C9.  The output list of `compare_sections` is sorted by the key
`(severity rank, change id)` — CRITICAL rank 0, MODERATE 1, MINOR 2, anything
else 3 (`sevRank`): every adjacent pair of output records is ordered by
strictly smaller severity rank, or equal rank and code-point-lexicographic
`≤` on the change ids.
-/
theorem C9_output_sorted (oldSecs newSecs : List (String × Sec))
    (matchThr hfThr relocThr : ℚ) (strictMode includeNonTrue : Bool) (n0 : Nat) :
    List.Chain'
      (fun a b => sevRank a.severity < sevRank b.severity ∨
        (sevRank a.severity = sevRank b.severity ∧ strLe a.changeId b.changeId = true))
      (compareSections oldSecs newSecs matchThr hfThr relocThr strictMode includeNonTrue
        n0) := by
  have h := chain'_stableSortBy sevIdLe sevIdLe_total
    (validateChanges (rawChanges oldSecs newSecs matchThr hfThr relocThr n0)
      strictMode includeNonTrue)
  have hc : compareSections oldSecs newSecs matchThr hfThr relocThr strictMode
      includeNonTrue n0 =
      stableSortBy sevIdLe
        (validateChanges (rawChanges oldSecs newSecs matchThr hfThr relocThr n0)
          strictMode includeNonTrue) := rfl
  rw [hc]
  refine List.Chain'.imp ?_ h
  intro a b hab
  simpa [sevIdLe] using hab

/-! ## Claim C10 -/

theorem sevInv_of (c : Change)
    (h1 : c.ctype = "TRUE_CHANGE" → c.severity = "CRITICAL" ∨ c.severity = "MODERATE")
    (h2 : c.ctype ≠ "TRUE_CHANGE" → c.severity = "MINOR") : sevInv c = true := by
  by_cases hct : c.ctype = "TRUE_CHANGE"
  · rw [sevInv, if_pos hct]
    rcases h1 hct with h | h <;> simp [h]
  · rw [sevInv, if_neg hct]
    split_ifs with h3
    · simp [h2 hct]
    · rfl

theorem sevFromText_true (st ot nt : String) :
    severityFromText "TRUE_CHANGE" st ot nt = "CRITICAL" ∨
    severityFromText "TRUE_CHANGE" st ot nt = "MODERATE" := by
  simp only [severityFromText]
  split_ifs with h1 h2 h3 h4 h5
  all_goals simp_all

theorem sevInv_build_minor (os ns : Option (String × Sec)) (ct st d w : String)
    (sc : ℚ) (n : Nat) (h : ct ≠ "TRUE_CHANGE") :
    sevInv (buildChange os ns ct "MINOR" st d w sc n) = true := by
  refine sevInv_of _ ?_ ?_
  · intro hc; exact absurd hc h
  · intro _; rfl

theorem sevInv_build_true (os ns : Option (String × Sec)) (st st2 d w ot nt : String)
    (sc : ℚ) (n : Nat) :
    sevInv (buildChange os ns "TRUE_CHANGE" (severityFromText "TRUE_CHANGE" st ot nt)
      st2 d w sc n) = true := by
  refine sevInv_of _ ?_ ?_
  · intro _
    exact sevFromText_true st ot nt
  · intro h; exact absurd rfl h

theorem sevInv_downgradeOp (c : Change) : sevInv (downgradeOp c) = true := rfl

theorem sevInv_downgradeCap (c : Change) : sevInv (downgradeCap c) = true := rfl

theorem sevInv_classifyMatched (old new : String × Sec) (score ut : ℚ) (n : Nat)
    (c : Change) (hc : (classifyMatchedChange old new score ut n).1 = some c) :
    sevInv c = true := by
  simp only [classifyMatchedChange] at hc
  split_ifs at hc
  all_goals
    first
    | exact Option.noConfusion hc
    | (obtain rfl := (Option.some.inj hc).symm
       first
       | exact sevInv_build_minor _ _ _ _ _ _ _ _ (by decide)
       | exact sevInv_build_true _ _ _ _ _ _ _ _ _ _)

theorem sevInv_classifyUnOld (old : String × Sec) (newSecs : List (String × Sec))
    (relocThr : ℚ) (n : Nat) :
    sevInv (classifyUnmatchedOld old newSecs relocThr n).1 = true := by
  simp only [classifyUnmatchedOld]
  split
  · exact sevInv_build_minor _ _ _ _ _ _ _ _ (by decide)
  · split
    · split_ifs
      · exact sevInv_build_minor _ _ _ _ _ _ _ _ (by decide)
      · exact sevInv_build_minor _ _ _ _ _ _ _ _ (by decide)
      · exact sevInv_build_true _ _ _ _ _ _ _ _ _ _
    · split_ifs
      · exact sevInv_build_minor _ _ _ _ _ _ _ _ (by decide)
      · exact sevInv_build_true _ _ _ _ _ _ _ _ _ _

theorem sevInv_classifyUnNew (new : String × Sec) (oldSecs : List (String × Sec))
    (relocThr : ℚ) (n : Nat) :
    sevInv (classifyUnmatchedNew new oldSecs relocThr n).1 = true := by
  simp only [classifyUnmatchedNew]
  split
  · exact sevInv_build_minor _ _ _ _ _ _ _ _ (by decide)
  · split
    · split_ifs
      · exact sevInv_build_minor _ _ _ _ _ _ _ _ (by decide)
      · exact sevInv_build_minor _ _ _ _ _ _ _ _ (by decide)
      · exact sevInv_build_true _ _ _ _ _ _ _ _ _ _
    · split_ifs
      · exact sevInv_build_minor _ _ _ _ _ _ _ _ (by decide)
      · exact sevInv_build_true _ _ _ _ _ _ _ _ _ _

theorem sevInv_classifyMatchedFold (oldSecs newSecs : List (String × Sec)) :
    ∀ (ms : List (String × String × ℚ)) (n : Nat),
      ∀ c ∈ (classifyMatchedFold oldSecs newSecs ms n).1, sevInv c = true := by
  intro ms
  induction ms with
  | nil => intro n c hc; simp [classifyMatchedFold] at hc
  | cons p rest ih =>
    obtain ⟨o, ni, sc⟩ := p
    intro n c hc
    simp only [classifyMatchedFold] at hc
    split at hc
    · rename_i c2 heq
      have hc' : c ∈ c2 :: (classifyMatchedFold oldSecs newSecs rest
          ((classifyMatchedChange (o, lookupSec oldSecs o) (ni, lookupSec newSecs ni)
            sc (mkRat 95 100) n).2)).1 := hc
      rcases List.mem_cons.mp hc' with rfl | hc2
      · exact sevInv_classifyMatched _ _ _ _ _ _ heq
      · exact ih _ c hc2
    · exact ih _ c hc

theorem sevInv_classifyUnOldFold (newSecs : List (String × Sec)) (mo : List String)
    (relocThr : ℚ) :
    ∀ (l : List (String × Sec)) (n : Nat),
      ∀ c ∈ (classifyUnOldFold newSecs mo relocThr l n).1, sevInv c = true := by
  intro l
  induction l with
  | nil => intro n c hc; simp [classifyUnOldFold] at hc
  | cons o rest ih =>
    intro n c hc
    simp only [classifyUnOldFold] at hc
    split at hc
    · exact ih _ c hc
    · have hc2 : c = (classifyUnmatchedOld o newSecs relocThr n).1 ∨
          c ∈ (classifyUnOldFold newSecs mo relocThr rest
            ((classifyUnmatchedOld o newSecs relocThr n).2)).1 := List.mem_cons.mp hc
      rcases hc2 with rfl | hc2
      · exact sevInv_classifyUnOld _ _ _ _
      · exact ih _ c hc2

theorem sevInv_classifyUnNewFold (oldSecs : List (String × Sec)) (mn : List String)
    (relocThr : ℚ) :
    ∀ (l : List (String × Sec)) (n : Nat),
      ∀ c ∈ (classifyUnNewFold oldSecs mn relocThr l n).1, sevInv c = true := by
  intro l
  induction l with
  | nil => intro n c hc; simp [classifyUnNewFold] at hc
  | cons ni rest ih =>
    intro n c hc
    simp only [classifyUnNewFold] at hc
    split at hc
    · exact ih _ c hc
    · have hc2 : c = (classifyUnmatchedNew ni oldSecs relocThr n).1 ∨
          c ∈ (classifyUnNewFold oldSecs mn relocThr rest
            ((classifyUnmatchedNew ni oldSecs relocThr n).2)).1 := List.mem_cons.mp hc
      rcases hc2 with rfl | hc2
      · exact sevInv_classifyUnNew _ _ _ _
      · exact ih _ c hc2

theorem sevInv_rawChanges (oldSecs newSecs : List (String × Sec))
    (matchThr hfThr relocThr : ℚ) (n0 : Nat) :
    ∀ c ∈ rawChanges oldSecs newSecs matchThr hfThr relocThr n0, sevInv c = true := by
  intro c hc
  simp only [rawChanges, List.mem_append] at hc
  rcases hc with (hc | hc) | hc
  · exact sevInv_classifyMatchedFold _ _ _ _ c hc
  · exact sevInv_classifyUnOldFold _ _ _ _ _ c hc
  · exact sevInv_classifyUnNewFold _ _ _ _ _ c hc

theorem sevInv_opImpactPass (l : List Change) (h : ∀ c ∈ l, sevInv c = true) :
    ∀ c ∈ opImpactPass l, sevInv c = true := by
  intro c hc
  simp only [opImpactPass, List.mem_map] at hc
  obtain ⟨c0, hc0, hgc⟩ := hc
  subst hgc
  split_ifs with h1 h2 h3 h4
  · exact h c0 hc0
  · exact h c0 hc0
  · exact h c0 hc0
  · exact h c0 hc0
  · exact sevInv_downgradeOp c0

theorem sevInv_tryMerge (ch : Change) :
    ∀ (acc acc2 : List Change), tryMerge ch acc = some acc2 →
      (∀ c ∈ acc, sevInv c = true) → ∀ c ∈ acc2, sevInv c = true := by
  intro acc
  induction acc with
  | nil => intro acc2 hm; exact Option.noConfusion hm
  | cons ex rest ih =>
    intro acc2 hm h
    rw [tryMerge] at hm
    split_ifs at hm with hcond
    · have hx := Option.some.inj hm
      subst hx
      intro c hc
      rcases List.mem_cons.mp hc with rfl | hc
      · have : sevInv (mergeInto ex ch) = sevInv ex := rfl
        rw [this]
        exact h ex (by simp)
      · exact h c (by simp [hc])
    · cases hrec : tryMerge ch rest with
      | some rest2 =>
        rw [hrec] at hm
        have hx := Option.some.inj hm
        subst hx
        intro c hc
        rcases List.mem_cons.mp hc with rfl | hc
        · exact h _ (by simp)
        · exact ih rest2 hrec (fun x hx2 => h x (by simp [hx2])) c hc
      | none =>
        rw [hrec] at hm
        exact Option.noConfusion hm

theorem sevInv_dedupeAux :
    ∀ (l acc : List Change), (∀ c ∈ acc, sevInv c = true) →
      (∀ c ∈ l, sevInv c = true) → ∀ c ∈ dedupeAux acc l, sevInv c = true := by
  intro l
  induction l with
  | nil => intro acc hacc _; rw [dedupeAux]; exact hacc
  | cons ch rest ih =>
    intro acc hacc hl
    rw [dedupeAux]
    cases hm : tryMerge ch acc with
    | some acc2 =>
      exact ih acc2 (sevInv_tryMerge ch acc acc2 hm hacc)
        (fun c hc => hl c (by simp [hc]))
    | none =>
      refine ih (acc ++ [ch]) ?_ (fun c hc => hl c (by simp [hc]))
      intro c hc
      rcases List.mem_append.mp hc with hc | hc
      · exact hacc c hc
      · rw [List.mem_singleton.mp hc]
        exact hl ch (by simp)

theorem sevInv_dedupe (l : List Change) (h : ∀ c ∈ l, sevInv c = true) :
    ∀ c ∈ dedupeByTopic l, sevInv c = true :=
  sevInv_dedupeAux l [] (by simp) h

theorem sevInv_cap (l : List Change) (h : ∀ c ∈ l, sevInv c = true) :
    ∀ c ∈ capOverDetection l 35, sevInv c = true := by
  intro c hc
  simp only [capOverDetection] at hc
  split at hc
  · exact h c hc
  · obtain ⟨c0, hc0, hgc⟩ := List.mem_map.mp hc
    subst hgc
    split_ifs with h1 h2
    · exact h c0 hc0
    · exact h c0 hc0
    · exact sevInv_downgradeCap c0

theorem sevInv_validate (l : List Change) (s i : Bool) (h : ∀ c ∈ l, sevInv c = true) :
    ∀ c ∈ validateChanges l s i, sevInv c = true := by
  intro c hc
  simp only [validateChanges] at hc
  have hc2 := List.mem_of_mem_filter hc
  exact sevInv_cap _ (sevInv_dedupe _ (sevInv_opImpactPass l h)) c hc2

/--
C10.  Severity invariant: in the raw classifier output, after the
operational-impact pass, after topic dedup, after the volume cap, and in the
final output of `compare_sections`, every record whose type is NOISE,
STRUCTURAL_CHANGE or SEMANTIC_MINOR has severity MINOR, and every
TRUE_CHANGE record has severity CRITICAL or MODERATE (`sevInv`) — so only
TRUE_CHANGE records can carry CRITICAL or MODERATE.
-/
theorem C10_severity_invariant (oldSecs newSecs : List (String × Sec))
    (matchThr hfThr relocThr : ℚ) (strictMode includeNonTrue : Bool) (n0 : Nat) :
    (rawChanges oldSecs newSecs matchThr hfThr relocThr n0).all sevInv = true ∧
    (opImpactPass (rawChanges oldSecs newSecs matchThr hfThr relocThr n0)).all sevInv
      = true ∧
    (dedupeByTopic (opImpactPass
      (rawChanges oldSecs newSecs matchThr hfThr relocThr n0))).all sevInv = true ∧
    (capOverDetection (dedupeByTopic (opImpactPass
      (rawChanges oldSecs newSecs matchThr hfThr relocThr n0))) 35).all sevInv = true ∧
    (compareSections oldSecs newSecs matchThr hfThr relocThr strictMode includeNonTrue
      n0).all sevInv = true := by
  have h0 := sevInv_rawChanges oldSecs newSecs matchThr hfThr relocThr n0
  have h1 := sevInv_opImpactPass _ h0
  have h2 := sevInv_dedupe _ h1
  have h3 := sevInv_cap _ h2
  refine ⟨List.all_eq_true.mpr h0, List.all_eq_true.mpr h1, List.all_eq_true.mpr h2,
    List.all_eq_true.mpr h3, List.all_eq_true.mpr ?_⟩
  intro c hc
  have hc2 : c ∈ stableSortBy sevIdLe
      (validateChanges (rawChanges oldSecs newSecs matchThr hfThr relocThr n0)
        strictMode includeNonTrue) := hc
  have hc3 := (mem_stableSortBy sevIdLe _ c).mp hc2
  exact sevInv_validate _ _ _ h0 c hc3

/-! ## Claim C7 -/

/--
C7.  The final output of `compare_sections` never contains a NOISE record
(whatever the flags); under the default strict mode without
`include_non_true`, no record of any type other than TRUE_CHANGE appears;
and for the noise scenario — old `{"1": heading "PAGE 4", body ""}`, new
empty — the raw classifier output is exactly one internal NOISE record while
the final default output excludes it entirely.
-/
theorem C7_noise_excluded (oldSecs newSecs : List (String × Sec))
    (matchThr hfThr relocThr : ℚ) (strictMode includeNonTrue : Bool) (n0 : Nat) :
    (compareSections oldSecs newSecs matchThr hfThr relocThr strictMode includeNonTrue
        n0).countP (fun c => c.ctype = "NOISE") = 0 ∧
    (compareSections oldSecs newSecs matchThr hfThr relocThr true false n0).countP
        (fun c => c.ctype ≠ "TRUE_CHANGE") = 0 ∧
    (rawChanges [("1", ⟨some "PAGE 4", some "", none⟩)] []
        (mkRat 58 100) (mkRat 82 100) (mkRat 78 100) 1).map (fun c => c.ctype) =
      ["NOISE"] ∧
    compareSectionsDefault [("1", ⟨some "PAGE 4", some "", none⟩)] [] 1 = [] := by
  refine ⟨?_, ?_, by decide, by decide⟩
  · rw [List.countP_eq_zero]
    intro c hc
    have hc2 := (mem_stableSortBy sevIdLe _ c).mp hc
    simp only [validateChanges] at hc2
    have hf := (List.mem_filter.mp hc2).2
    simp only [Bool.and_eq_true, decide_eq_true_eq] at hf
    simp only [decide_eq_true_eq]
    exact hf.1
  · rw [List.countP_eq_zero]
    intro c hc
    have hc2 := (mem_stableSortBy sevIdLe _ c).mp hc
    simp only [validateChanges] at hc2
    have hf := (List.mem_filter.mp hc2).2
    by_cases hT : c.ctype = "TRUE_CHANGE"
    · simp [hT]
    · exfalso
      simp only [Bool.and_eq_true, Bool.not_eq_true'] at hf
      have h2 := hf.2
      simp [hT] at h2

/-! ## Claim C8 -/

theorem flatten_map_nil {β : Type} (f : α → List β) (l : List α)
    (h : ∀ x ∈ l, f x = []) : (l.map f).flatten = [] := by
  rw [List.flatten_eq_nil_iff]
  intro l2 hl2
  obtain ⟨x, hx, rfl⟩ := List.mem_map.mp hl2
  exact h x hx

theorem matchStage_nil_left (newSecs : List (String × Sec)) (mt hf : ℚ) :
    matchStage [] newSecs mt hf = ⟨[], [], []⟩ := rfl

theorem matchStage_nil_right (oldSecs : List (String × Sec)) (mt hf : ℚ) :
    matchStage oldSecs [] mt hf = ⟨[], [], []⟩ := by
  have hs : (List.map (fun o => List.map
      (fun ni => (pairScore o.2 ni.2, o.1, ni.1)) ([] : List (String × Sec)))
      oldSecs).flatten = ([] : List (ℚ × String × String)) :=
    flatten_map_nil _ _ (fun x _ => rfl)
  simp only [matchStage]
  rw [hs]
  have hst1 : greedyPass mt (stableSortBy scoreDesc []) (⟨[], [], []⟩ : MatchState) =
      ⟨[], [], []⟩ := rfl
  rw [hst1]
  have hh : (List.map (fun o => List.map
      (fun ni => (lexicalSimilarity (headingOf o.2) (headingOf ni.2), o.1, ni.1))
      (List.filter (fun ni => !decide (ni.1 ∈ (⟨[], [], []⟩ : MatchState).mn))
        ([] : List (String × Sec))))
      (List.filter (fun o => !decide (o.1 ∈ (⟨[], [], []⟩ : MatchState).mo))
        oldSecs)).flatten = ([] : List (ℚ × String × String)) :=
    flatten_map_nil _ _ (fun x _ => rfl)
  rw [hh]
  rfl

theorem classifyUnOldFold_nil_length (newSecs : List (String × Sec)) (rt : ℚ) :
    ∀ (l : List (String × Sec)) (n : Nat),
      ((classifyUnOldFold newSecs [] rt l n).1).length = l.length := by
  intro l
  induction l with
  | nil => intro n; rfl
  | cons o rest ih =>
    intro n
    simp only [classifyUnOldFold]
    simp [ih]

theorem classifyUnNewFold_nil_length (oldSecs : List (String × Sec)) (rt : ℚ) :
    ∀ (l : List (String × Sec)) (n : Nat),
      ((classifyUnNewFold oldSecs [] rt l n).1).length = l.length := by
  intro l
  induction l with
  | nil => intro n; rfl
  | cons ni rest ih =>
    intro n
    simp only [classifyUnNewFold]
    simp [ih]

theorem rawChanges_nil_left (newSecs : List (String × Sec)) (mt hf rt : ℚ) (n0 : Nat) :
    (rawChanges [] newSecs mt hf rt n0).length = newSecs.length := by
  have h : rawChanges [] newSecs mt hf rt n0 =
      (classifyUnNewFold [] [] rt newSecs n0).1 := rfl
  rw [h]
  exact classifyUnNewFold_nil_length [] rt newSecs n0

theorem rawChanges_nil_right (oldSecs : List (String × Sec)) (mt hf rt : ℚ) (n0 : Nat) :
    (rawChanges oldSecs [] mt hf rt n0).length = oldSecs.length := by
  have hst : matchStage oldSecs [] mt hf = ⟨[], [], []⟩ := matchStage_nil_right oldSecs mt hf
  have h : rawChanges oldSecs [] mt hf rt n0 =
      (classifyUnOldFold [] [] rt oldSecs n0).1 := by
    simp only [rawChanges, hst, classifyMatchedFold, classifyUnNewFold,
      List.nil_append, List.append_nil]
  rw [h]
  exact classifyUnOldFold_nil_length [] rt oldSecs n0

/--
C8.  Empty-mapping and missing-field behaviour of `compare_sections` (the
embedding is built from total functions, so termination on every well-formed
input holds by construction): with both mappings empty the result is the
empty list for every configuration; with one side empty the matcher accepts
no pair and every section of the non-empty side is processed as unmatched,
yielding exactly one raw record per section; and a section whose heading,
body and meaning are all missing is read back as empty strings.
-/
theorem C8_empty_inputs (oldSecs newSecs : List (String × Sec)) (b m : Option String)
    (matchThr hfThr relocThr : ℚ) (strictMode includeNonTrue : Bool) (n0 : Nat) :
    compareSections [] [] matchThr hfThr relocThr strictMode includeNonTrue n0 = [] ∧
    matchStage [] newSecs matchThr hfThr = ⟨[], [], []⟩ ∧
    matchStage oldSecs [] matchThr hfThr = ⟨[], [], []⟩ ∧
    (rawChanges [] newSecs matchThr hfThr relocThr n0).length = newSecs.length ∧
    (rawChanges oldSecs [] matchThr hfThr relocThr n0).length = oldSecs.length ∧
    headingOf ⟨none, b, m⟩ = "" ∧ bodyOf ⟨none, none, m⟩ = "" ∧
    comparisonText ⟨none, none, none⟩ = "" ∧ comparisonText ⟨some "", some "", some ""⟩ = "" :=
  ⟨rfl, matchStage_nil_left newSecs matchThr hfThr,
   matchStage_nil_right oldSecs matchThr hfThr,
   rawChanges_nil_left newSecs matchThr hfThr relocThr n0,
   rawChanges_nil_right oldSecs matchThr hfThr relocThr n0,
   rfl, rfl, rfl, rfl⟩

/-! ## Claims C1 and C3 -/

/--
C1.  For the scenario old `{"6.1": heading "Flight duty period limit", body
"The flight duty period shall not exceed 13 hours."}` against the same
section with "11 hours", `compare_sections` with the default configuration
returns exactly one record: a TRUE_CHANGE, subtype "Numeric limit changed",
severity CRITICAL, with numeric delta removed `["13"]` and added `["11"]`.
-/
theorem C1_numeric_limit_scenario :
    (compareSectionsDefault c1Old c1New 1).map
      (fun c => (c.ctype, c.subtype, c.severity, c.deltaRemoved, c.deltaAdded)) =
    [("TRUE_CHANGE", "Numeric limit changed", "CRITICAL", ["13"], ["11"])] := by
  decide

/--
C3.  Determinism as a two-run property: two runs of `compare_sections` on
identical input mappings with identical thresholds and flags, the id
generator reset to the same value per run (and the embedding backend
disabled, as modelled), return equal output lists in every field.  The
engine reads no other state: the embedding exhibits the output as a function
of exactly these arguments.
-/
theorem C3_deterministic (oldSecs newSecs oldSecs2 newSecs2 : List (String × Sec))
    (matchThr hfThr relocThr : ℚ) (strictMode includeNonTrue : Bool) (n0 : Nat)
    (ho : oldSecs = oldSecs2) (hn : newSecs = newSecs2) :
    compareSections oldSecs newSecs matchThr hfThr relocThr strictMode includeNonTrue
      n0 =
    compareSections oldSecs2 newSecs2 matchThr hfThr relocThr strictMode includeNonTrue
      n0 := by
  rw [ho, hn]

/-- Witness for `C3_deterministic`: two runs on a concrete mapping pair. -/
theorem C3_deterministic_witness :
    compareSections c1Old c1New (mkRat 58 100) (mkRat 82 100) (mkRat 78 100) true false
      1 =
    compareSections c1Old c1New (mkRat 58 100) (mkRat 82 100) (mkRat 78 100) true false
      1 :=
  C3_deterministic c1Old c1New c1Old c1New (mkRat 58 100) (mkRat 82 100) (mkRat 78 100)
    true false 1 rfl rfl

/-! ## Claim C2 -/

theorem filter_flatten (p : α → Bool) : ∀ (l : List (List α)),
    l.flatten.filter p = (l.map (fun s => s.filter p)).flatten := by
  intro l
  induction l with
  | nil => rfl
  | cons x xs ih =>
    rw [List.flatten_cons, List.filter_append, ih, List.map_cons, List.flatten_cons]

/-- On identical mappings with distinct keys and an attainable threshold, the
full-signal greedy pass matches every key to itself, in order: row induction
over the score-1 prefix of the sorted pair list. -/
theorem greedy_diag (secsAll : List (String × Sec)) (mt : ℚ) (hmt : mt ≤ 1)
    (hnd : (secsAll.map Prod.fst).Nodup) :
    ∀ (rest pre : List (String × Sec)), secsAll = pre ++ rest →
      greedyGen (fun sc => sc) mt
        ((rest.map (fun o => (secsAll.map
          (fun ni => (pairScore o.2 ni.2, o.1, ni.1))).filter
            (fun x => decide (x.1 = 1)))).flatten)
        ⟨(pre.map Prod.fst).reverse, (pre.map Prod.fst).reverse,
          pre.map (fun p => (p.1, p.1, (1 : ℚ)))⟩ =
      ⟨(secsAll.map Prod.fst).reverse, (secsAll.map Prod.fst).reverse,
        secsAll.map (fun p => (p.1, p.1, (1 : ℚ)))⟩ := by
  intro rest
  induction rest with
  | nil =>
    intro pre hpre
    rw [List.append_nil] at hpre
    subst hpre
    rfl
  | cons hd rest' ih =>
    obtain ⟨k, s⟩ := hd
    intro pre hpre
    subst hpre
    rw [List.map_cons, List.flatten_cons]
    dsimp only
    have hrow : ((pre ++ (k, s) :: rest').map
          (fun ni => (pairScore s ni.2, k, ni.1))).filter (fun x => decide (x.1 = 1)) =
        ((pre.map (fun ni => (pairScore s ni.2, k, ni.1))).filter
          (fun x => decide (x.1 = 1))) ++
        ((1 : ℚ), k, k) ::
        ((rest'.map (fun ni => (pairScore s ni.2, k, ni.1))).filter
          (fun x => decide (x.1 = 1))) := by
      rw [List.map_append, List.map_cons, List.filter_append, List.filter_cons]
      simp only [pairScore_self]
      simp
    rw [hrow, List.append_assoc, List.cons_append]
    have hnbPre : ∀ x ∈ (pre.map (fun ni => (pairScore s ni.2, k, ni.1))).filter
        (fun x => decide (x.1 = 1)), ¬(x.1 < mt) := by
      intro x hx
      have h2 : x.1 = 1 := of_decide_eq_true (List.mem_filter.mp hx).2
      rw [h2]
      exact not_lt.mpr hmt
    rw [greedyGen_append (fun sc => sc) mt _ _ _ hnbPre]
    have hskipA : ∀ x ∈ (pre.map (fun ni => (pairScore s ni.2, k, ni.1))).filter
        (fun x => decide (x.1 = 1)),
        x.2.1 ∈ (⟨(pre.map Prod.fst).reverse, (pre.map Prod.fst).reverse,
          pre.map (fun p => (p.1, p.1, (1 : ℚ)))⟩ : MatchState).mo ∨
        x.2.2 ∈ (⟨(pre.map Prod.fst).reverse, (pre.map Prod.fst).reverse,
          pre.map (fun p => (p.1, p.1, (1 : ℚ)))⟩ : MatchState).mn := by
      intro x hx
      have hx2 := List.mem_of_mem_filter hx
      obtain ⟨ni, hni, rfl⟩ := List.mem_map.mp hx2
      right
      exact List.mem_reverse.mpr (List.mem_map.mpr ⟨ni, hni, rfl⟩)
    rw [greedyGen_stuck (fun sc => sc) mt _ _ hskipA]
    rw [greedyGen]
    dsimp only
    have hk : k ∉ pre.map Prod.fst := by
      simp only [List.map_append, List.map_cons] at hnd
      have hdisj := (List.nodup_append.mp hnd).2.2
      intro hkin
      exact hdisj hkin (List.mem_cons_self _ _)
    have hkr : k ∉ (pre.map Prod.fst).reverse := fun h => hk (List.mem_reverse.mp h)
    rw [if_neg (not_lt.mpr hmt)]
    rw [if_neg (fun h => h.elim hkr hkr)]
    have hnbPost : ∀ x ∈ (rest'.map (fun ni => (pairScore s ni.2, k, ni.1))).filter
        (fun x => decide (x.1 = 1)), ¬(x.1 < mt) := by
      intro x hx
      have h2 : x.1 = 1 := of_decide_eq_true (List.mem_filter.mp hx).2
      rw [h2]
      exact not_lt.mpr hmt
    rw [greedyGen_append (fun sc => sc) mt _ _ _ hnbPost]
    have hskipC : ∀ x ∈ (rest'.map (fun ni => (pairScore s ni.2, k, ni.1))).filter
        (fun x => decide (x.1 = 1)),
        x.2.1 ∈ (⟨k :: (pre.map Prod.fst).reverse, k :: (pre.map Prod.fst).reverse,
          pre.map (fun p => (p.1, p.1, (1 : ℚ))) ++ [(k, k, 1)]⟩ : MatchState).mo ∨
        x.2.2 ∈ (⟨k :: (pre.map Prod.fst).reverse, k :: (pre.map Prod.fst).reverse,
          pre.map (fun p => (p.1, p.1, (1 : ℚ))) ++ [(k, k, 1)]⟩ : MatchState).mn := by
      intro x hx
      have hx2 := List.mem_of_mem_filter hx
      obtain ⟨ni, hni, rfl⟩ := List.mem_map.mp hx2
      left
      exact List.mem_cons_self _ _
    rw [greedyGen_stuck (fun sc => sc) mt _ _ hskipC]
    have hst : (⟨k :: (pre.map Prod.fst).reverse, k :: (pre.map Prod.fst).reverse,
        pre.map (fun p => (p.1, p.1, (1 : ℚ))) ++ [(k, k, 1)]⟩ : MatchState) =
        ⟨((pre ++ [(k, s)]).map Prod.fst).reverse,
          ((pre ++ [(k, s)]).map Prod.fst).reverse,
          (pre ++ [(k, s)]).map (fun p => (p.1, p.1, (1 : ℚ)))⟩ := by
      simp
    rw [hst]
    exact ih (pre ++ [(k, s)]) (by simp)

/-- The sorted full-signal greedy pass on identical mappings. -/
theorem greedyPass_self (secs : List (String × Sec)) (mt : ℚ) (hmt : mt ≤ 1)
    (hnd : (secs.map Prod.fst).Nodup) :
    greedyPass mt (stableSortBy scoreDesc
      ((secs.map (fun o => secs.map
        (fun ni => (pairScore o.2 ni.2, o.1, ni.1)))).flatten)) ⟨[], [], []⟩ =
    ⟨(secs.map Prod.fst).reverse, (secs.map Prod.fst).reverse,
      secs.map (fun p => (p.1, p.1, (1 : ℚ)))⟩ := by
  have hble : ∀ x ∈ (secs.map (fun o => secs.map
      (fun ni => (pairScore o.2 ni.2, o.1, ni.1)))).flatten,
      (fun x : ℚ × String × String => x.1) x ≤ (1 : ℚ) := by
    intro x hx
    obtain ⟨row, hrow, hxin⟩ := List.mem_flatten.mp hx
    obtain ⟨o, ho, rfl⟩ := List.mem_map.mp hrow
    obtain ⟨ni, hni, rfl⟩ := List.mem_map.mp hxin
    exact pairScore_le_one o.2 ni.2
  have hsplit : stableSortBy scoreDesc
      ((secs.map (fun o => secs.map
        (fun ni => (pairScore o.2 ni.2, o.1, ni.1)))).flatten) =
      ((secs.map (fun o => secs.map
        (fun ni => (pairScore o.2 ni.2, o.1, ni.1)))).flatten).filter
          (fun x => decide (x.1 = 1)) ++
      stableSortBy scoreDesc
        (((secs.map (fun o => secs.map
          (fun ni => (pairScore o.2 ni.2, o.1, ni.1)))).flatten).filter
            (fun x => !decide (x.1 = 1))) :=
    stableSortBy_filter_top (fun x : ℚ × String × String => x.1) 1 _ hble
  have hfilter : ((secs.map (fun o => secs.map
      (fun ni => (pairScore o.2 ni.2, o.1, ni.1)))).flatten).filter
        (fun x => decide (x.1 = 1)) =
      (secs.map (fun o => (secs.map
        (fun ni => (pairScore o.2 ni.2, o.1, ni.1))).filter
          (fun x => decide (x.1 = 1)))).flatten := by
    rw [filter_flatten, List.map_map]
    rfl
  have hdiag0 : greedyGen (fun sc => sc) mt
      ((secs.map (fun o => (secs.map
        (fun ni => (pairScore o.2 ni.2, o.1, ni.1))).filter
          (fun x => decide (x.1 = 1)))).flatten) ⟨[], [], []⟩ =
      ⟨(secs.map Prod.fst).reverse, (secs.map Prod.fst).reverse,
        secs.map (fun p => (p.1, p.1, (1 : ℚ)))⟩ :=
    greedy_diag secs mt hmt hnd secs [] rfl
  have hnb : ∀ x ∈ ((secs.map (fun o => secs.map
      (fun ni => (pairScore o.2 ni.2, o.1, ni.1)))).flatten).filter
        (fun x => decide (x.1 = 1)), ¬(x.1 < mt) := by
    intro x hx
    have h2 : x.1 = 1 := of_decide_eq_true (List.mem_filter.mp hx).2
    rw [h2]
    exact not_lt.mpr hmt
  rw [greedyPass, hsplit]
  rw [greedyGen_append (fun sc => sc) mt _ _ _ hnb]
  rw [hfilter, hdiag0]
  have hT : ∀ p ∈ stableSortBy scoreDesc
      (((secs.map (fun o => secs.map
        (fun ni => (pairScore o.2 ni.2, o.1, ni.1)))).flatten).filter
          (fun x => !decide (x.1 = 1))),
      p.2.1 ∈ (⟨(secs.map Prod.fst).reverse, (secs.map Prod.fst).reverse,
        secs.map (fun p => (p.1, p.1, (1 : ℚ)))⟩ : MatchState).mo ∨
      p.2.2 ∈ (⟨(secs.map Prod.fst).reverse, (secs.map Prod.fst).reverse,
        secs.map (fun p => (p.1, p.1, (1 : ℚ)))⟩ : MatchState).mn := by
    intro p hp
    have hp2 := (mem_stableSortBy scoreDesc _ p).mp hp
    have hp3 := List.mem_of_mem_filter hp2
    obtain ⟨row, hrow, hpin⟩ := List.mem_flatten.mp hp3
    obtain ⟨o, ho, rfl⟩ := List.mem_map.mp hrow
    obtain ⟨ni, hni, rfl⟩ := List.mem_map.mp hpin
    left
    exact List.mem_reverse.mpr (List.mem_map.mpr ⟨o, ho, rfl⟩)
  rw [greedyGen_stuck (fun sc => sc) mt _ _ hT]

/-- The whole matching stage on identical mappings: every key matched to
itself by the full-signal pass; the heading-fallback pass has nothing left. -/
theorem matchStage_self (secs : List (String × Sec)) (mt hf : ℚ) (hmt : mt ≤ 1)
    (hnd : (secs.map Prod.fst).Nodup) :
    matchStage secs secs mt hf =
      ⟨(secs.map Prod.fst).reverse, (secs.map Prod.fst).reverse,
        secs.map (fun p => (p.1, p.1, (1 : ℚ)))⟩ := by
  have hst1 := greedyPass_self secs mt hmt hnd
  simp only [matchStage]
  rw [hst1]
  dsimp only
  have hfe : secs.filter
      (fun o => !decide (o.1 ∈ (secs.map Prod.fst).reverse)) = [] := by
    rw [List.filter_eq_nil_iff]
    intro o ho
    have hm : o.1 ∈ (secs.map Prod.fst).reverse :=
      List.mem_reverse.mpr (List.mem_map.mpr ⟨o, ho, rfl⟩)
    simp [hm]
  rw [hfe]
  rfl

theorem classifyMatchedChange_self (k : String) (s : Sec) (ut : ℚ) (n : Nat) :
    classifyMatchedChange (k, s) (k, s) 1 ut n = (none, n) := by
  simp only [classifyMatchedChange]
  rw [if_pos (Or.inl trivial)]
  rw [if_neg (fun h : k ≠ k => h rfl)]

theorem classifyMatchedFold_diag (secs : List (String × Sec)) :
    ∀ (l : List (String × Sec)) (n : Nat),
      classifyMatchedFold secs secs (l.map (fun p => (p.1, p.1, (1 : ℚ)))) n =
        ([], n) := by
  intro l
  induction l with
  | nil => intro n; rfl
  | cons p rest ih =>
    intro n
    obtain ⟨k, s⟩ := p
    simp only [List.map_cons, classifyMatchedFold]
    rw [classifyMatchedChange_self]
    exact ih n

theorem classifyUnOldFold_skip (newSecs : List (String × Sec)) (mo : List String)
    (rt : ℚ) :
    ∀ (l : List (String × Sec)) (n : Nat), (∀ o ∈ l, o.1 ∈ mo) →
      classifyUnOldFold newSecs mo rt l n = ([], n) := by
  intro l
  induction l with
  | nil => intro n _; rfl
  | cons o rest ih =>
    intro n h
    rw [classifyUnOldFold, if_pos (h o (by simp))]
    exact ih n (fun x hx => h x (by simp [hx]))

theorem classifyUnNewFold_skip (oldSecs : List (String × Sec)) (mn : List String)
    (rt : ℚ) :
    ∀ (l : List (String × Sec)) (n : Nat), (∀ o ∈ l, o.1 ∈ mn) →
      classifyUnNewFold oldSecs mn rt l n = ([], n) := by
  intro l
  induction l with
  | nil => intro n _; rfl
  | cons o rest ih =>
    intro n h
    rw [classifyUnNewFold, if_pos (h o (by simp))]
    exact ih n (fun x hx => h x (by simp [hx]))

theorem rawChanges_self (secs : List (String × Sec)) (mt hf rt : ℚ) (hmt : mt ≤ 1)
    (hnd : (secs.map Prod.fst).Nodup) (n0 : Nat) :
    rawChanges secs secs mt hf rt n0 = [] := by
  have hmem : ∀ o ∈ secs, o.1 ∈ (secs.map Prod.fst).reverse :=
    fun o ho => List.mem_reverse.mpr (List.mem_map.mpr ⟨o, ho, rfl⟩)
  have hms := matchStage_self secs mt hf hmt hnd
  simp only [rawChanges, hms]
  try dsimp only
  rw [classifyMatchedFold_diag secs secs n0]
  try dsimp only
  rw [classifyUnOldFold_skip secs ((secs.map Prod.fst).reverse) rt secs n0 hmem]
  try dsimp only
  rw [classifyUnNewFold_skip secs ((secs.map Prod.fst).reverse) rt secs n0 hmem]
  rfl

theorem compareSections_self (secs : List (String × Sec)) (mt hf rt : ℚ)
    (hmt : mt ≤ 1) (hnd : (secs.map Prod.fst).Nodup)
    (strictMode includeNonTrue : Bool) (n0 : Nat) :
    compareSections secs secs mt hf rt strictMode includeNonTrue n0 = [] := by
  have h := rawChanges_self secs mt hf rt hmt hnd n0
  simp only [compareSections, h]
  rfl

/--
C2.  On identical input mappings (the same association list on both sides,
keys pairwise distinct as in a dict) with any attainable match threshold
(`match_threshold ≤ 1`, which covers the default 0.58), `compare_sections`
emits no TRUE_CHANGE record and no STRUCTURAL_CHANGE record whose old-section
id differs from its new-section id — indeed the proof shows the output is
empty: every key is matched to itself and classified as no-change.
-/
theorem C2_identical_mappings (secs : List (String × Sec)) (mt hf rt : ℚ)
    (strictMode includeNonTrue : Bool) (n0 : Nat)
    (hnd : (secs.map Prod.fst).Nodup) (hmt : mt ≤ 1) :
    (compareSections secs secs mt hf rt strictMode includeNonTrue n0).countP
      (fun c => c.ctype = "TRUE_CHANGE") = 0 ∧
    (compareSections secs secs mt hf rt strictMode includeNonTrue n0).countP
      (fun c => c.ctype = "STRUCTURAL_CHANGE" ∧ c.oldSection ≠ c.newSection) = 0 := by
  rw [compareSections_self secs mt hf rt hmt hnd strictMode includeNonTrue n0]
  exact ⟨rfl, rfl⟩

/-- Witness for `C2_identical_mappings` at a concrete mapping and the default
configuration. -/
theorem C2_identical_mappings_witness :
    (compareSections c1Old c1Old (mkRat 58 100) (mkRat 82 100) (mkRat 78 100) true
        false 1).countP (fun c => c.ctype = "TRUE_CHANGE") = 0 ∧
    (compareSections c1Old c1Old (mkRat 58 100) (mkRat 82 100) (mkRat 78 100) true
        false 1).countP
      (fun c => c.ctype = "STRUCTURAL_CHANGE" ∧ c.oldSection ≠ c.newSection) = 0 :=
  C2_identical_mappings c1Old (mkRat 58 100) (mkRat 82 100) (mkRat 78 100) true false 1
    (by decide) (by decide)

end DocCmp
